import Mathlib

/-!
# Verification of the `fixrepo` catalog reshaper

A shallow embedding of `main.go` (the RipeStore repo-manifest normalizer):
Go strings and byte slices are modelled as lists of byte values (`Nat < 256`),
Go's `unicode/utf8` decoding, the text sanitizer, the flexible type coercion,
the flexible date parser and the field projector are translated function by
function, and the spec's testable properties are proved against them.
-/

namespace FixRepo

/-- A Go byte slice / Go string: a list of byte values (each `< 256`). -/
abbrev Bytes := List Nat

/-- `utf8.RuneError`, the Unicode replacement character U+FFFD. -/
def runeError : Nat := 0xFFFD

/-- Lowest admissible second byte for a multi-byte sequence headed by `b0`
(Go `utf8` acceptance table: `locb` column). -/
def acceptLo (b0 : Nat) : Nat :=
  if b0 = 0xE0 then 0xA0 else if b0 = 0xF0 then 0x90 else 0x80

/-- Highest admissible second byte for a multi-byte sequence headed by `b0`
(Go `utf8` acceptance table: `hicb` column). -/
def acceptHi (b0 : Nat) : Nat :=
  if b0 = 0xED then 0x9F else if b0 = 0xF4 then 0x8F else 0xBF

/-- Is `b` a UTF-8 continuation byte (`0x80..0xBF`)? -/
def isCont (b : Nat) : Prop := 0x80 ≤ b ∧ b ≤ 0xBF

instance (b : Nat) : Decidable (isCont b) := by unfold isCont; infer_instance

/-- Go `utf8.DecodeRuneInString`: decode the first rune of `s`, returning the
rune value and the number of bytes consumed.  Every malformed prefix yields
`(RuneError, 1)` (and the empty string yields `(RuneError, 0)`). -/
def decodeRune : Bytes → Nat × Nat
  | [] => (runeError, 0)
  | b0 :: rest =>
    if b0 < 0x80 then (b0, 1)
    else if b0 < 0xC2 ∨ 0xF4 < b0 then (runeError, 1)
    else
      match rest with
      | [] => (runeError, 1)
      | b1 :: rest1 =>
        if ¬(acceptLo b0 ≤ b1 ∧ b1 ≤ acceptHi b0) then (runeError, 1)
        else if b0 ≤ 0xDF then (b0 % 0x20 * 0x40 + b1 % 0x40, 2)
        else if b0 ≤ 0xEF then
          match rest1 with
          | [] => (runeError, 1)
          | b2 :: _ =>
            if ¬isCont b2 then (runeError, 1)
            else (b0 % 0x10 * 0x1000 + b1 % 0x40 * 0x40 + b2 % 0x40, 3)
        else
          match rest1 with
          | [] => (runeError, 1)
          | b2 :: rest2 =>
            if ¬isCont b2 then (runeError, 1)
            else
              match rest2 with
              | [] => (runeError, 1)
              | b3 :: _ =>
                if ¬isCont b3 then (runeError, 1)
                else (b0 % 0x8 * 0x40000 + b1 % 0x40 * 0x1000 +
                      b2 % 0x40 * 0x40 + b3 % 0x40, 4)

theorem decodeRune_snd_pos (s : Bytes) (h : s ≠ []) : 1 ≤ (decodeRune s).2 := by
  rcases s with _ | ⟨b0, _ | ⟨b1, _ | ⟨b2, _ | ⟨b3, rest⟩⟩⟩⟩
  · exact absurd rfl h
  all_goals
    simp only [decodeRune]
    repeat' split
    all_goals simp

/-- Go `utf8.ValidString`: does `s` consist entirely of valid UTF-8 encodings?
(Expressed through the decoder: no decoding step reports an error.) -/
def validUtf8 (s : Bytes) : Bool :=
  if h : s = [] then true
  else if (decodeRune s).1 = runeError ∧ (decodeRune s).2 = 1 then false
  else validUtf8 (s.drop (decodeRune s).2)
termination_by s.length
decreasing_by
  have h1 := decodeRune_snd_pos s h
  have : s.length ≠ 0 := fun hl => h (List.eq_nil_of_length_eq_zero hl)
  simp only [List.length_drop]
  omega

/-- Go `utf8.encodeRune` / `WriteRune` on an already-valid rune value:
the UTF-8 byte encoding of `r`.  Surrogate halves and out-of-range values
encode as the replacement character, as in Go. -/
def encodeRune (r : Nat) : Bytes :=
  if r < 0x80 then [r]
  else if r < 0x800 then [0xC0 + r / 0x40, 0x80 + r % 0x40]
  else if (0xD800 ≤ r ∧ r ≤ 0xDFFF) ∨ 0x10FFFF < r then [0xEF, 0xBF, 0xBD]
  else if r < 0x10000 then
    [0xE0 + r / 0x1000, 0x80 + r / 0x40 % 0x40, 0x80 + r % 0x40]
  else
    [0xF0 + r / 0x40000, 0x80 + r / 0x1000 % 0x40,
     0x80 + r / 0x40 % 0x40, 0x80 + r % 0x40]

/-- `replaceInvalidUTF8` from `main.go`: decode runes one at a time, copying
valid sequences and emitting one replacement character per undecodable byte
(advancing exactly one byte on an error). -/
def replaceInvalidUTF8 (s : Bytes) : Bytes :=
  if h : s = [] then []
  else if (decodeRune s).1 = runeError ∧ (decodeRune s).2 = 1 then
    encodeRune runeError ++ replaceInvalidUTF8 (s.drop 1)
  else
    encodeRune (decodeRune s).1 ++ replaceInvalidUTF8 (s.drop (decodeRune s).2)
termination_by s.length
decreasing_by
  · have : s.length ≠ 0 := fun hl => h (List.eq_nil_of_length_eq_zero hl)
    simp only [List.length_drop]
    omega
  · have h1 := decodeRune_snd_pos s h
    have : s.length ≠ 0 := fun hl => h (List.eq_nil_of_length_eq_zero hl)
    simp only [List.length_drop]
    omega

/-- `sanitizeString` from `main.go`: return `s` unchanged when it is already
valid UTF-8, otherwise run the unit-by-unit repair. -/
def sanitizeString (s : Bytes) : Bytes :=
  if validUtf8 s then s else replaceInvalidUTF8 s

/-- A run of plain ASCII bytes (always valid UTF-8). -/
def asciiRun (s : Bytes) : Prop := ∀ b ∈ s, b < 0x80

instance (s : Bytes) : Decidable (asciiRun s) := by
  unfold asciiRun; infer_instance

theorem acceptLo_mem (b0 : Nat) : acceptLo b0 = 0x80 ∨ acceptLo b0 = 0xA0 ∨ acceptLo b0 = 0x90 := by
  unfold acceptLo
  split
  · simp
  split <;> simp

theorem accept2 {b0 b1 : Nat} (h0 : 0xC2 ≤ b0) (h0' : b0 ≤ 0xDF)
    (hlo : acceptLo b0 ≤ b1) (hhi : b1 ≤ acceptHi b0) : 0x80 ≤ b1 ∧ b1 ≤ 0xBF := by
  unfold acceptLo at hlo; unfold acceptHi at hhi
  repeat' split at hlo
  all_goals repeat' split at hhi
  all_goals omega

theorem accept3 {b0 b1 : Nat} (h0 : 0xE0 ≤ b0) (h0' : b0 ≤ 0xEF)
    (hlo : acceptLo b0 ≤ b1) (hhi : b1 ≤ acceptHi b0) :
    0x80 ≤ b1 ∧ b1 ≤ 0xBF ∧ (b0 = 0xE0 → 0xA0 ≤ b1) ∧ (b0 = 0xED → b1 ≤ 0x9F) := by
  unfold acceptLo at hlo; unfold acceptHi at hhi
  repeat' split at hlo
  all_goals repeat' split at hhi
  all_goals omega

theorem accept4 {b0 b1 : Nat} (h0 : 0xF0 ≤ b0) (h0' : b0 ≤ 0xF4)
    (hlo : acceptLo b0 ≤ b1) (hhi : b1 ≤ acceptHi b0) :
    0x80 ≤ b1 ∧ b1 ≤ 0xBF ∧ (b0 = 0xF0 → 0x90 ≤ b1) ∧ (b0 = 0xF4 → b1 ≤ 0x8F) := by
  unfold acceptLo at hlo; unfold acceptHi at hhi
  repeat' split at hlo
  all_goals repeat' split at hhi
  all_goals omega

theorem encodeRune1 {r : Nat} (h : r < 0x80) : encodeRune r = [r] := by
  unfold encodeRune; rw [if_pos h]

theorem encodeRune2 {r : Nat} (h1 : 0x80 ≤ r) (h2 : r < 0x800) :
    encodeRune r = [0xC0 + r / 0x40, 0x80 + r % 0x40] := by
  unfold encodeRune; rw [if_neg (by omega), if_pos h2]

theorem encodeRune3 {r : Nat} (h1 : 0x800 ≤ r) (h2 : r < 0x10000)
    (h3 : ¬(0xD800 ≤ r ∧ r ≤ 0xDFFF)) :
    encodeRune r = [0xE0 + r / 0x1000, 0x80 + r / 0x40 % 0x40, 0x80 + r % 0x40] := by
  unfold encodeRune
  rw [if_neg (by omega), if_neg (by omega), if_neg (by omega), if_pos h2]

theorem encodeRune4 {r : Nat} (h1 : 0x10000 ≤ r) (h2 : r ≤ 0x10FFFF) :
    encodeRune r = [0xF0 + r / 0x40000, 0x80 + r / 0x1000 % 0x40,
                    0x80 + r / 0x40 % 0x40, 0x80 + r % 0x40] := by
  unfold encodeRune
  rw [if_neg (by omega), if_neg (by omega), if_neg (by omega), if_neg (by omega)]

/-- Any decode consumes no more bytes than the string has. -/
theorem decodeRune_snd_le (s : Bytes) : (decodeRune s).2 ≤ s.length := by
  rcases s with _ | ⟨b0, _ | ⟨b1, _ | ⟨b2, _ | ⟨b3, rest⟩⟩⟩⟩
  · simp [decodeRune]
  all_goals
    simp only [decodeRune]
    repeat' split
    all_goals try simp
    all_goals omega

/-- A successful decode consumes no more bytes than the string has. -/
theorem decodeRune_succ_le (s : Bytes)
    (hok : ¬((decodeRune s).1 = runeError ∧ (decodeRune s).2 = 1)) :
    (decodeRune s).2 ≤ s.length :=
  decodeRune_snd_le s

/-- A successful decode is unaffected by appending further bytes. -/
theorem decodeRune_append (s t : Bytes) (hs : s ≠ [])
    (hok : ¬((decodeRune s).1 = runeError ∧ (decodeRune s).2 = 1)) :
    decodeRune (s ++ t) = decodeRune s := by
  rcases s with _ | ⟨b0, _ | ⟨b1, _ | ⟨b2, _ | ⟨b3, rest⟩⟩⟩⟩
  · exact absurd rfl hs
  all_goals
    rcases t with _ | ⟨c0, t⟩
    · simp
  all_goals
    simp only [decodeRune, List.cons_append, List.nil_append] at hok ⊢
    repeat' split
    all_goals simp_all

theorem enc2 {b0 b1 : Nat} (t : Bytes) (h0 : 0xC2 ≤ b0) (h0' : b0 ≤ 0xDF)
    (hacc : acceptLo b0 ≤ b1 ∧ b1 ≤ acceptHi b0) :
    encodeRune (b0 % 0x20 * 0x40 + b1 % 0x40) ++ t = b0 :: b1 :: t := by
  obtain ⟨hb1, hb1'⟩ := accept2 h0 h0' hacc.1 hacc.2
  rw [encodeRune2 (by omega) (by omega)]
  simp only [List.cons_append, List.nil_append, List.cons.injEq]
  refine ⟨by omega, by omega, trivial⟩

theorem enc3 {b0 b1 b2 : Nat} (t : Bytes) (h0 : 0xE0 ≤ b0) (h0' : b0 ≤ 0xEF)
    (hacc : acceptLo b0 ≤ b1 ∧ b1 ≤ acceptHi b0) (hc : isCont b2) :
    encodeRune (b0 % 0x10 * 0x1000 + b1 % 0x40 * 0x40 + b2 % 0x40) ++ t =
      b0 :: b1 :: b2 :: t := by
  obtain ⟨hb1, hb1', hE0, hED⟩ := accept3 h0 h0' hacc.1 hacc.2
  obtain ⟨hc1, hc2⟩ := hc
  rw [encodeRune3 (by omega) (by omega) (by omega)]
  simp only [List.cons_append, List.nil_append, List.cons.injEq]
  refine ⟨by omega, by omega, by omega, trivial⟩

theorem enc4 {b0 b1 b2 b3 : Nat} (t : Bytes) (h0 : 0xF0 ≤ b0) (h0' : b0 ≤ 0xF4)
    (hacc : acceptLo b0 ≤ b1 ∧ b1 ≤ acceptHi b0) (hc : isCont b2) (hd : isCont b3) :
    encodeRune (b0 % 0x8 * 0x40000 + b1 % 0x40 * 0x1000 + b2 % 0x40 * 0x40 + b3 % 0x40) ++ t =
      b0 :: b1 :: b2 :: b3 :: t := by
  obtain ⟨hb1, hb1', hF0, hF4⟩ := accept4 h0 h0' hacc.1 hacc.2
  obtain ⟨hc1, hc2⟩ := hc
  obtain ⟨hd1, hd2⟩ := hd
  rw [encodeRune4 (by omega) (by omega)]
  simp only [List.cons_append, List.nil_append, List.cons.injEq]
  refine ⟨by omega, by omega, by omega, by omega, trivial⟩

/-- Re-encoding a successfully decoded rune reproduces exactly the bytes
consumed: UTF-8 encode is a left inverse of decode on valid sequences. -/
theorem encode_decodeRune (s : Bytes) (hs : s ≠ [])
    (hok : ¬((decodeRune s).1 = runeError ∧ (decodeRune s).2 = 1)) :
    encodeRune (decodeRune s).1 ++ s.drop (decodeRune s).2 = s := by
  rcases s with _ | ⟨b0, rest⟩
  · exact absurd rfl hs
  by_cases h1 : b0 < 0x80
  · have hd : decodeRune (b0 :: rest) = (b0, 1) := by
      simp only [decodeRune]; rw [if_pos h1]
    rw [hd, encodeRune1 h1]
    simp
  by_cases h2 : b0 < 0xC2 ∨ 0xF4 < b0
  · have hd : decodeRune (b0 :: rest) = (runeError, 1) := by
      simp only [decodeRune]; rw [if_neg h1, if_pos h2]
    rw [hd] at hok; simp at hok
  rcases rest with _ | ⟨b1, rest1⟩
  · have hd : decodeRune [b0] = (runeError, 1) := by
      simp only [decodeRune]; rw [if_neg h1, if_neg h2]
    rw [hd] at hok; simp at hok
  by_cases h3 : acceptLo b0 ≤ b1 ∧ b1 ≤ acceptHi b0
  case neg =>
    have hd : decodeRune (b0 :: b1 :: rest1) = (runeError, 1) := by
      simp only [decodeRune]; rw [if_neg h1, if_neg h2, if_pos h3]
    rw [hd] at hok; simp at hok
  by_cases h4 : b0 ≤ 0xDF
  · have hd : decodeRune (b0 :: b1 :: rest1) = (b0 % 0x20 * 0x40 + b1 % 0x40, 2) := by
      simp only [decodeRune]
      rw [if_neg h1, if_neg h2, if_neg (not_not_intro h3), if_pos h4]
    rw [hd]
    exact enc2 _ (by omega) h4 h3
  by_cases h5 : b0 ≤ 0xEF
  · rcases rest1 with _ | ⟨b2, rest2⟩
    · have hd : decodeRune [b0, b1] = (runeError, 1) := by
        simp only [decodeRune]
        rw [if_neg h1, if_neg h2, if_neg (not_not_intro h3), if_neg h4, if_pos h5]
      rw [hd] at hok; simp at hok
    by_cases h6 : isCont b2
    · have hd : decodeRune (b0 :: b1 :: b2 :: rest2) =
          (b0 % 0x10 * 0x1000 + b1 % 0x40 * 0x40 + b2 % 0x40, 3) := by
        simp only [decodeRune]
        rw [if_neg h1, if_neg h2, if_neg (not_not_intro h3), if_neg h4, if_pos h5,
          if_neg (not_not_intro h6)]
      rw [hd]
      exact enc3 _ (by omega) h5 h3 h6
    · have hd : decodeRune (b0 :: b1 :: b2 :: rest2) = (runeError, 1) := by
        simp only [decodeRune]
        rw [if_neg h1, if_neg h2, if_neg (not_not_intro h3), if_neg h4, if_pos h5, if_pos h6]
      rw [hd] at hok; simp at hok
  · rcases rest1 with _ | ⟨b2, rest2⟩
    · have hd : decodeRune [b0, b1] = (runeError, 1) := by
        simp only [decodeRune]
        rw [if_neg h1, if_neg h2, if_neg (not_not_intro h3), if_neg h4, if_neg h5]
      rw [hd] at hok; simp at hok
    by_cases h6 : isCont b2
    · rcases rest2 with _ | ⟨b3, rest3⟩
      · have hd : decodeRune [b0, b1, b2] = (runeError, 1) := by
          simp only [decodeRune]
          rw [if_neg h1, if_neg h2, if_neg (not_not_intro h3), if_neg h4, if_neg h5,
            if_neg (not_not_intro h6)]
        rw [hd] at hok; simp at hok
      by_cases h7 : isCont b3
      · have hd : decodeRune (b0 :: b1 :: b2 :: b3 :: rest3) =
            (b0 % 0x8 * 0x40000 + b1 % 0x40 * 0x1000 + b2 % 0x40 * 0x40 + b3 % 0x40, 4) := by
          simp only [decodeRune]
          rw [if_neg h1, if_neg h2, if_neg (not_not_intro h3), if_neg h4, if_neg h5,
            if_neg (not_not_intro h6), if_neg (not_not_intro h7)]
        rw [hd]
        exact enc4 _ (by omega) (by omega) h3 h6 h7
      · have hd : decodeRune (b0 :: b1 :: b2 :: b3 :: rest3) = (runeError, 1) := by
          simp only [decodeRune]
          rw [if_neg h1, if_neg h2, if_neg (not_not_intro h3), if_neg h4, if_neg h5,
            if_neg (not_not_intro h6), if_pos h7]
        rw [hd] at hok; simp at hok
    · have hd : decodeRune (b0 :: b1 :: b2 :: rest2) = (runeError, 1) := by
        simp only [decodeRune]
        rw [if_neg h1, if_neg h2, if_neg (not_not_intro h3), if_neg h4, if_neg h5, if_pos h6]
      rw [hd] at hok; simp at hok

/-- The repair loop maps the empty string to the empty string. -/
theorem replaceInvalid_nil : replaceInvalidUTF8 [] = [] := by
  rw [replaceInvalidUTF8]; simp

/-- One step of `validUtf8` on a nonempty valid string. -/
theorem validUtf8_step (v : Bytes) (h : v ≠ []) (hv : validUtf8 v = true) :
    ¬((decodeRune v).1 = runeError ∧ (decodeRune v).2 = 1) ∧
      validUtf8 (v.drop (decodeRune v).2) = true := by
  rw [validUtf8, dif_neg h] at hv
  split at hv
  · exact absurd hv (by simp)
  · exact ⟨by assumption, hv⟩

/-- A valid prefix is copied verbatim by the repair loop. -/
theorem replaceInvalid_append_valid :
    ∀ (k : ℕ) (v t : Bytes), v.length ≤ k → validUtf8 v = true →
      replaceInvalidUTF8 (v ++ t) = v ++ replaceInvalidUTF8 t := by
  intro k
  induction k with
  | zero =>
    intro v t hk _
    have : v = [] := List.eq_nil_of_length_eq_zero (Nat.le_zero.mp hk)
    simp [this]
  | succ k ih =>
    intro v t hk hv
    by_cases hne : v = []
    · simp [hne]
    obtain ⟨hok, hrest⟩ := validUtf8_step v hne hv
    have hlen := decodeRune_succ_le v hok
    have hpos := decodeRune_snd_pos v hne
    have hdlen : v.length ≠ 0 := fun hl => hne (List.eq_nil_of_length_eq_zero hl)
    rcases t with _ | ⟨c0, t⟩
    · rw [List.append_nil, replaceInvalid_nil, List.append_nil]
      rw [replaceInvalidUTF8, dif_neg hne, if_neg hok]
      have hx : replaceInvalidUTF8 (v.drop (decodeRune v).2) = v.drop (decodeRune v).2 := by
        have h5 := ih (v.drop (decodeRune v).2) [] (by simp; omega) hrest
        simpa [replaceInvalid_nil] using h5
      rw [hx]
      exact encode_decodeRune v hne hok
    · have hne2 : v ++ c0 :: t ≠ [] := by simp [hne]
      have hdec := decodeRune_append v (c0 :: t) hne hok
      rw [replaceInvalidUTF8, dif_neg hne2]
      rw [hdec, if_neg hok]
      rw [List.drop_append_of_le_length hlen]
      rw [ih (v.drop (decodeRune v).2) (c0 :: t) (by simp; omega) hrest]
      rw [← List.append_assoc]
      rw [encode_decodeRune v hne hok]

/-- Validity of an appended string with a valid prefix reduces to the suffix. -/
theorem validUtf8_append_valid :
    ∀ (k : ℕ) (v t : Bytes), v.length ≤ k → validUtf8 v = true →
      validUtf8 (v ++ t) = validUtf8 t := by
  intro k
  induction k with
  | zero =>
    intro v t hk _
    have : v = [] := List.eq_nil_of_length_eq_zero (Nat.le_zero.mp hk)
    simp [this]
  | succ k ih =>
    intro v t hk hv
    by_cases hne : v = []
    · simp [hne]
    obtain ⟨hok, hrest⟩ := validUtf8_step v hne hv
    have hlen := decodeRune_succ_le v hok
    have hpos := decodeRune_snd_pos v hne
    have hdlen : v.length ≠ 0 := fun hl => hne (List.eq_nil_of_length_eq_zero hl)
    rcases t with _ | ⟨c0, t⟩
    · rw [List.append_nil, hv]
      rw [validUtf8]; simp
    · have hne2 : v ++ c0 :: t ≠ [] := by simp [hne]
      have hdec := decodeRune_append v (c0 :: t) hne hok
      rw [validUtf8, dif_neg hne2]
      rw [hdec, if_neg hok]
      rw [List.drop_append_of_le_length hlen]
      exact ih (v.drop (decodeRune v).2) (c0 :: t) (by simp; omega) hrest

/-- An ASCII byte run is valid UTF-8. -/
theorem asciiRun_valid (s : Bytes) (hs : asciiRun s) : validUtf8 s = true := by
  induction s with
  | nil => rw [validUtf8]; simp
  | cons b rest ih =>
    have hb : b < 0x80 := hs b (by simp)
    rw [validUtf8, dif_neg (by simp)]
    have hdec : decodeRune (b :: rest) = (b, 1) := by
      simp only [decodeRune]; rw [if_pos hb]
    rw [hdec, if_neg (by unfold runeError; omega)]
    simp only [List.drop_succ_cons, List.drop_zero]
    exact ih (fun x hx => hs x (by simp [hx]))

/-- A byte `≥ 0x80` whose following bytes are ASCII (or absent) is undecodable,
and the decoder reports it with size one. -/
theorem decodeRune_invalid_ascii (b : Nat) (s : Bytes) (hb : 0x80 ≤ b)
    (hs : asciiRun s) : decodeRune (b :: s) = (runeError, 1) := by
  rcases s with _ | ⟨c, s'⟩
  · simp only [decodeRune]
    rw [if_neg (by omega)]
    split
    · rfl
    · rfl
  · have hc : c < 0x80 := hs c (by simp)
    simp only [decodeRune]
    rw [if_neg (by omega)]
    by_cases h2 : b < 0xC2 ∨ 0xF4 < b
    · rw [if_pos h2]
    · rw [if_neg h2, if_pos]
      rcases acceptLo_mem b with h' | h' | h' <;> omega


theorem encodeRune_runeError : encodeRune runeError = [0xEF, 0xBF, 0xBD] := by decide

/-- A valid prefix of any string is copied verbatim (top-level wrapper). -/
theorem replaceInvalid_valid_lead (v t : Bytes) (hv : validUtf8 v = true) :
    replaceInvalidUTF8 (v ++ t) = v ++ replaceInvalidUTF8 t :=
  replaceInvalid_append_valid v.length v t le_rfl hv

/-- The repair loop fixes ASCII runs pointwise (it copies them verbatim). -/
theorem replaceInvalid_ascii (s : Bytes) (hs : asciiRun s) :
    replaceInvalidUTF8 s = s := by
  have h := replaceInvalid_valid_lead s [] (asciiRun_valid s hs)
  simpa [replaceInvalid_nil] using h

/-- A string starting with an undecodable unit is not valid UTF-8. -/
theorem validUtf8_err_head (b : Nat) (w : Bytes)
    (herr : decodeRune (b :: w) = (runeError, 1)) :
    validUtf8 (b :: w) = false := by
  rw [validUtf8, dif_neg (by simp)]
  rw [if_pos (by rw [herr]; exact ⟨rfl, rfl⟩)]

/-- C7.  Text sanitizer contract: a string that is already valid UTF-8 is
returned unchanged (no-op fast path); otherwise repair proceeds unit by unit:
after any valid prefix, an undecodable byte is replaced by exactly one U+FFFD
(`EF BF BD`) and repair continues with the very next byte, so in particular an
invalid byte embedded between two ASCII runs yields exactly one replacement
character with both runs intact and no data after the corrupt byte lost. -/
theorem claim_C7_sanitizer :
    (∀ s : Bytes, validUtf8 s = true → sanitizeString s = s) ∧
    (∀ (v w : Bytes) (b : Nat), validUtf8 v = true →
      decodeRune (b :: w) = (runeError, 1) →
      replaceInvalidUTF8 (v ++ b :: w) = v ++ [0xEF, 0xBF, 0xBD] ++ replaceInvalidUTF8 w) ∧
    (∀ (p q : Bytes) (b : Nat), asciiRun p → asciiRun q → 0x80 ≤ b →
      sanitizeString (p ++ b :: q) = p ++ [0xEF, 0xBF, 0xBD] ++ q) := by
  refine ⟨?_, ?_, ?_⟩
  · intro s hv
    rw [sanitizeString, if_pos hv]
  · intro v w b hv herr
    rw [replaceInvalid_valid_lead v _ hv]
    rw [replaceInvalidUTF8, dif_neg (by simp), herr]
    rw [if_pos ⟨rfl, rfl⟩, encodeRune_runeError]
    simp only [List.drop_succ_cons, List.drop_zero, List.append_assoc]
  · intro p q b hp hq hb
    have herr := decodeRune_invalid_ascii b q hb hq
    have hvalid : validUtf8 (p ++ b :: q) = false := by
      rw [validUtf8_append_valid p.length p (b :: q) le_rfl (asciiRun_valid p hp)]
      exact validUtf8_err_head b q herr
    rw [sanitizeString, hvalid]
    simp only [Bool.false_eq_true, if_false]
    have h2 := replaceInvalid_valid_lead p (b :: q) (asciiRun_valid p hp)
    rw [h2]
    rw [replaceInvalidUTF8, dif_neg (by simp), herr]
    rw [if_pos ⟨rfl, rfl⟩, encodeRune_runeError]
    simp only [List.drop_succ_cons, List.drop_zero]
    rw [replaceInvalid_ascii q hq]
    rw [List.append_assoc]

/-- Witness for C7 at concrete inputs: `"ab\x80c"` sanitizes to `"ab\uFFFDc"`,
and a valid string is untouched. -/
theorem claim_C7_sanitizer_witness :
    sanitizeString [0x61, 0x62, 0x80, 0x63] = [0x61, 0x62, 0xEF, 0xBF, 0xBD, 0x63] ∧
    sanitizeString [0x61, 0xC3, 0xA9] = [0x61, 0xC3, 0xA9] :=
  ⟨claim_C7_sanitizer.2.2 [0x61, 0x62] [0x63] 0x80 (by decide) (by decide) (by decide),
   claim_C7_sanitizer.1 [0x61, 0xC3, 0xA9] (by
     rw [validUtf8, dif_neg (by simp)]
     norm_num [decodeRune, acceptLo, acceptHi, isCont, runeError]
     rw [validUtf8, dif_neg (by simp)]
     norm_num [decodeRune, acceptLo, acceptHi, isCont, runeError]
     rw [validUtf8]
     simp)⟩


/-! ## IEEE-754 binary64 values and Go float formatting

`encoding/json` decodes every JSON number into a `float64`; `fmt.Sprintf("%v")`
(via `strconv.FormatFloat 'g' -1`) and the json encoder print one back using
the shortest decimal that round-trips.  A float64 value is modelled as the
exact rational it denotes; `roundF64` is the IEEE round-to-nearest-even
conversion from an arbitrary rational. -/

/-- Round a rational to the nearest integer, ties to even. -/
def rhe (q : ℚ) : ℤ :=
  if q - ⌊q⌋ < 1 / 2 then ⌊q⌋
  else if 1 / 2 < q - ⌊q⌋ then ⌊q⌋ + 1
  else if ⌊q⌋ % 2 = 0 then ⌊q⌋ else ⌊q⌋ + 1

/-- `⌊log₂ a⌋` for a nonzero rational (junk value at `0`). -/
def floorLog2 (a : ℚ) : ℤ :=
  if (2 : ℚ) ^ ((Nat.log2 a.num.natAbs : ℤ) - (Nat.log2 a.den : ℤ) + 1) ≤ |a| then
    (Nat.log2 a.num.natAbs : ℤ) - (Nat.log2 a.den : ℤ) + 1
  else if (2 : ℚ) ^ ((Nat.log2 a.num.natAbs : ℤ) - (Nat.log2 a.den : ℤ)) ≤ |a| then
    (Nat.log2 a.num.natAbs : ℤ) - (Nat.log2 a.den : ℤ)
  else (Nat.log2 a.num.natAbs : ℤ) - (Nat.log2 a.den : ℤ) - 1

/-- Smallest binary scale of a float64: subnormals are `m · 2^(-1074)`. -/
def eminF64 : ℤ := -1074

/-- The binary scale used to round `q`: values get 53 bits of mantissa,
bounded below by the subnormal scale. -/
def scaleF64 (q : ℚ) : ℤ := max (floorLog2 |q| - 52) eminF64

/-- IEEE-754 binary64 round to nearest, ties to even, as a map on exact
rational values (overflow is not clamped here; callers compare against
`2^1024` where it matters, as Go's parser reports a range error). -/
def roundF64 (q : ℚ) : ℚ :=
  if q = 0 then 0
  else (rhe (q / 2 ^ scaleF64 q) : ℚ) * 2 ^ scaleF64 q

/-- `q` is (the exact value of) a finite `float64`. -/
def isF64 (q : ℚ) : Prop := roundF64 q = q ∧ |q| < 2 ^ (1024 : ℤ)

instance (q : ℚ) : Decidable (isF64 q) := by unfold isF64; infer_instance

/-- Number of decimal digits of `n` (0 for 0). -/
def digitsLen (n : ℕ) : ℕ :=
  if h : n = 0 then 0 else digitsLen (n / 10) + 1
termination_by n
decreasing_by exact Nat.div_lt_self (Nat.pos_of_ne_zero h) (by norm_num)

/-- Base-ten digits of `n`, little-endian (empty for 0). -/
def digitsRev (n : ℕ) : List ℕ :=
  if h : n = 0 then [] else n % 10 :: digitsRev (n / 10)
termination_by n
decreasing_by exact Nat.div_lt_self (Nat.pos_of_ne_zero h) (by norm_num)

/-- ASCII decimal representation of a natural number. -/
def natDecBytes (n : ℕ) : Bytes :=
  if n = 0 then [0x30] else (digitsRev n).reverse.map (· + 0x30)

/-- ASCII decimal representation of an integer (Go `strconv.FormatInt`). -/
def intDecBytes (z : ℤ) : Bytes :=
  if z < 0 then 0x2D :: natDecBytes z.natAbs else natDecBytes z.natAbs

/-- `⌊log₁₀ a⌋` for a nonzero rational (junk value at `0`). -/
def floorLog10 (a : ℚ) : ℤ :=
  if (10 : ℚ) ^ ((digitsLen a.num.natAbs : ℤ) - (digitsLen a.den : ℤ) + 1) ≤ |a| then
    (digitsLen a.num.natAbs : ℤ) - (digitsLen a.den : ℤ) + 1
  else if (10 : ℚ) ^ ((digitsLen a.num.natAbs : ℤ) - (digitsLen a.den : ℤ)) ≤ |a| then
    (digitsLen a.num.natAbs : ℤ) - (digitsLen a.den : ℤ)
  else (digitsLen a.num.natAbs : ℤ) - (digitsLen a.den : ℤ) - 1

/-- The decimal obtained by rounding `q` to `k` significant digits
(`k ≥ 1`), as a mantissa/scale pair: the value is `D · 10^t`. -/
def roundToSigDigits (q : ℚ) (k : ℕ) : ℤ × ℤ :=
  (rhe (q / 10 ^ (floorLog10 |q| + 1 - (k : ℤ))), floorLog10 |q| + 1 - (k : ℤ))

/-- Value denoted by a decimal mantissa/scale pair. -/
def decValue (p : ℤ × ℤ) : ℚ := (p.1 : ℚ) * 10 ^ p.2

/-- The precision (starting from 1 significant digit) at which rounding `q`
to that many digits still round-trips through `float64` — the core of Go's
shortest-float formatting contract (`strconv.FormatFloat` with precision -1:
"the minimum number of digits necessary to represent the value uniquely"). -/
def goShortestPrec (q : ℚ) : Option ℕ :=
  (List.range 17).find? (fun i => decide (roundF64 (decValue (roundToSigDigits q (i + 1))) = q))

/-- The decimal digits Go prints for the float64 value `q ≠ 0`: the shortest
rounding of `q` that parses back to `q`, and otherwise (never for an actual
float64, but demanded by totality) the exact decimal expansion of the dyadic
rational `q`. -/
def shortestDigitsOf (q : ℚ) : ℤ × ℤ :=
  match goShortestPrec q with
  | some i => roundToSigDigits q (i + 1)
  | none => (q.num * 5 ^ Nat.log2 q.den, -(Nat.log2 q.den : ℤ))

/-- Strip trailing decimal zeros from a natural mantissa, bumping the scale. -/
def stripZerosN (n : ℕ) (t : ℤ) : ℕ × ℤ :=
  if h : n ≠ 0 ∧ n % 10 = 0 then stripZerosN (n / 10) (t + 1) else (n, t)
termination_by n
decreasing_by exact Nat.div_lt_self (Nat.pos_of_ne_zero h.1) (by norm_num)

/-- Strip trailing decimal zeros from a mantissa/scale pair. -/
def stripZeros (p : ℤ × ℤ) : ℤ × ℤ :=
  (if p.1 < 0 then -((stripZerosN p.1.natAbs p.2).1 : ℤ)
   else ((stripZerosN p.1.natAbs p.2).1 : ℤ), (stripZerosN p.1.natAbs p.2).2)

/-- Zero-padding helper. -/
def zeroBytes (n : ℕ) : Bytes := List.replicate n 0x30

/-- Go `strconv` fixed-notation rendering (`fmtF`) of the decimal `D · 10^t`,
`D ≠ 0`, printing every significant digit and no more. -/
def renderFixed (D : ℤ) (t : ℤ) : Bytes :=
  (if D < 0 then [0x2D] else []) ++
  (let ds := natDecBytes D.natAbs
   if 0 ≤ t then ds ++ zeroBytes t.toNat
   else if 0 < t + ds.length then
     ds.take (t + ds.length).toNat ++ [0x2E] ++ ds.drop (t + ds.length).toNat
   else [0x30, 0x2E] ++ zeroBytes (-(t + ds.length)).toNat ++ ds)

/-- Exponent rendering: sign then at least `minWidth` digits. -/
def renderExp (e : ℤ) (minWidth : ℕ) : Bytes :=
  (if e < 0 then [0x2D] else [0x2B]) ++
  (let ds := natDecBytes e.natAbs
   zeroBytes (minWidth - ds.length) ++ ds)

/-- Go `strconv` scientific-notation rendering (`fmtE`) of `D · 10^t` with
`D ≠ 0` carrying the significant digits: `d.dddde±XX`. -/
def renderSci (D : ℤ) (t : ℤ) (expMinWidth : ℕ) : Bytes :=
  (if D < 0 then [0x2D] else []) ++
  (let ds := natDecBytes D.natAbs
   ds.take 1 ++ (if ds.length ≤ 1 then [] else [0x2E] ++ ds.drop 1) ++
   [0x65] ++ renderExp (t + ds.length - 1) expMinWidth)

/-- `fmt.Sprintf("%v", f)` for a float64 value: `strconv.FormatFloat(f, 'g', -1, 64)`.
Shortest digits; scientific notation when the decimal exponent is below -4 or
at least 6 (the `eprec = 6` rule for shortest `%g`), fixed notation otherwise. -/
def fmtFloatV (q : ℚ) : Bytes :=
  if q = 0 then [0x30]
  else
    let p := stripZeros (shortestDigitsOf q)
    let dp : ℤ := p.2 + digitsLen p.1.natAbs
    if dp - 1 < -4 ∨ 6 ≤ dp - 1 then renderSci p.1 p.2 2 else renderFixed p.1 p.2

/-- `encoding/json`'s float64 encoding: shortest digits, fixed notation for
magnitudes in `[1e-6, 1e21)`, otherwise scientific with the `e-0X → e-X`
cleanup (ES6-style). -/
def jsonFmtFloat (q : ℚ) : Bytes :=
  if q = 0 then [0x30]
  else
    let p := stripZeros (shortestDigitsOf q)
    if |q| < 1 / 1000000 ∨ (10 : ℚ) ^ (21 : ℕ) ≤ |q| then
      (let b := renderSci p.1 p.2 2
       match b.reverse with
       | d1 :: 0x30 :: 0x2D :: r => (d1 :: 0x2D :: r).reverse
       | _ => b)
    else renderFixed p.1 p.2

/-- Go `int64(f)` conversion of an in-range float64: truncation toward zero.
(Out-of-range conversions are implementation-specific in Go and are only ever
used under in-range hypotheses below.) -/
def truncF64 (q : ℚ) : ℤ := if 0 ≤ q then ⌊q⌋ else -⌊-q⌋


/-! ## Strings: ASCII helpers and `strings.TrimSpace` -/

/-- The bytes of an ASCII Lean string literal. -/
def asciiBytes (s : String) : Bytes := s.data.map Char.toNat

/-- Unicode white space as recognised by Go's `unicode.IsSpace`. -/
def isSpaceRune (r : Nat) : Prop :=
  (0x9 ≤ r ∧ r ≤ 0xD) ∨ r = 0x20 ∨ r = 0x85 ∨ r = 0xA0 ∨ r = 0x1680 ∨
  (0x2000 ≤ r ∧ r ≤ 0x200A) ∨ r = 0x2028 ∨ r = 0x2029 ∨ r = 0x202F ∨
  r = 0x205F ∨ r = 0x3000

instance (r : Nat) : Decidable (isSpaceRune r) := by unfold isSpaceRune; infer_instance

/-- Segment a byte string into its UTF-8 decoding units (each unit the bytes
one `DecodeRuneInString` step consumes). -/
def segsGo (s : Bytes) : List Bytes :=
  if h : s = [] then []
  else s.take (decodeRune s).2 :: segsGo (s.drop (decodeRune s).2)
termination_by s.length
decreasing_by
  have h1 := decodeRune_snd_pos s h
  have : s.length ≠ 0 := fun hl => h (List.eq_nil_of_length_eq_zero hl)
  simp only [List.length_drop]
  omega

/-- Does a decoding unit carry a white-space rune? -/
def segIsSpace (seg : Bytes) : Bool := decide (isSpaceRune (decodeRune seg).1)

/-- Go `strings.TrimSpace`: remove the maximal white-space prefix and suffix
(rune-wise; exercised only on valid UTF-8 in this program). -/
def goTrimSpace (s : Bytes) : Bytes :=
  ((((segsGo s).dropWhile segIsSpace).reverse.dropWhile segIsSpace).reverse).join

/-- `defaultIfEmpty` from `main.go`. -/
def defaultIfEmpty (s def9 : Bytes) : Bytes :=
  if goTrimSpace s = [] then def9 else s

/-- The fixed fallback catalog identifier. -/
def hardcodedIdentifier : Bytes := asciiBytes "com.ripestore.source"

/-- The fixed fallback source URL. -/
def hardcodedSourceURL : Bytes :=
  asciiBytes "https://raw.githubusercontent.com/RipeStore/repos/main/RipeStore_feather.json"

/-! ## Time: civil calendar, `time.Parse` layouts, RFC 3339 formatting -/

/-- Gregorian leap year. -/
def isLeap (y : ℤ) : Prop := y % 4 = 0 ∧ (¬(y % 100 = 0) ∨ y % 400 = 0)

instance (y : ℤ) : Decidable (isLeap y) := by unfold isLeap; infer_instance

/-- Days in a month of the proleptic Gregorian calendar. -/
def daysInMonth (y m : ℤ) : ℤ :=
  if m = 2 then (if isLeap y then 29 else 28)
  else if m = 4 ∨ m = 6 ∨ m = 9 ∨ m = 11 then 30 else 31

/-- Days from the civil date `(y, m, d)` to 1970-01-01 (Gregorian, standard
era-decomposition algorithm, as in Go's absolute-time conversion). -/
def civilToDays (y m d : ℤ) : ℤ :=
  let y2 := if m ≤ 2 then y - 1 else y
  let era := Int.fdiv y2 400
  let yoe := y2 - era * 400
  let mp := (m + 9) % 12
  let doy := Int.fdiv (153 * mp + 2) 5 + d - 1
  let doe := yoe * 365 + Int.fdiv yoe 4 - Int.fdiv yoe 100 + doy
  era * 146097 + doe - 719468

/-- Civil date of a day count relative to 1970-01-01 (inverse of
`civilToDays`). -/
def daysToCivil (z : ℤ) : ℤ × ℤ × ℤ :=
  let z2 := z + 719468
  let era := Int.fdiv z2 146097
  let doe := z2 - era * 146097
  let yoe := Int.fdiv (doe - Int.fdiv doe 1460 + Int.fdiv doe 36524 - Int.fdiv doe 146096) 365
  let y := yoe + era * 400
  let doy := doe - (365 * yoe + Int.fdiv yoe 4 - Int.fdiv yoe 100)
  let mp := Int.fdiv (5 * doy + 2) 153
  let d := doy - Int.fdiv (153 * mp + 2) 5 + 1
  let m := mp + (if mp < 10 then 3 else -9)
  (if m ≤ 2 then y + 1 else y, m, d)

/-- A Go `time.Time` instant: absolute seconds relative to the Unix epoch
plus nanoseconds. -/
structure GoTime where
  sec : ℤ
  nsec : ℤ
deriving DecidableEq

/-- The seconds count of Go's zero time, `0001-01-01T00:00:00 UTC`. -/
def zeroTimeSec : ℤ := civilToDays 1 1 1 * 86400

/-- Go's zero `time.Time`. -/
def zeroGoTime : GoTime := { sec := zeroTimeSec, nsec := 0 }

/-- Go `Time.IsZero`. -/
def GoTime.isZero (t : GoTime) : Prop := t = zeroGoTime

instance (t : GoTime) : Decidable t.isZero := by unfold GoTime.isZero; infer_instance

/-- ASCII decimal digit byte. -/
def isDigitB (b : Nat) : Prop := 0x30 ≤ b ∧ b ≤ 0x39

instance (b : Nat) : Decidable (isDigitB b) := by unfold isDigitB; infer_instance

/-- Parse exactly two ASCII digits (Go `getnum` with `fixed`). -/
def digit2 : Bytes → Option (ℤ × Bytes)
  | a :: b :: rest =>
    if isDigitB a ∧ isDigitB b then some (((a : ℤ) - 0x30) * 10 + ((b : ℤ) - 0x30), rest)
    else none
  | _ => none

/-- Parse exactly four ASCII digits (Go `getnum4` for `2006`). -/
def digit4 : Bytes → Option (ℤ × Bytes)
  | a :: b :: c :: d :: rest =>
    if isDigitB a ∧ isDigitB b ∧ isDigitB c ∧ isDigitB d then
      some ((((a : ℤ) - 0x30) * 10 + ((b : ℤ) - 0x30)) * 100 +
            ((c : ℤ) - 0x30) * 10 + ((d : ℤ) - 0x30), rest)
    else none
  | _ => none

/-- Parse one or two ASCII digits (Go `getnum` without `fixed`, used for the
hour element `15`). -/
def digit1or2 : Bytes → Option (ℤ × Bytes)
  | a :: b :: rest =>
    if isDigitB a then
      if isDigitB b then some (((a : ℤ) - 0x30) * 10 + ((b : ℤ) - 0x30), rest)
      else some ((a : ℤ) - 0x30, b :: rest)
    else none
  | [a] => if isDigitB a then some ((a : ℤ) - 0x30, []) else none
  | [] => none

/-- Require a literal byte. -/
def lit (c : Nat) : Bytes → Option Bytes
  | b :: rest => if b = c then some rest else none
  | [] => none

/-- Collect a maximal run of ASCII digits. -/
def takeDigits : Bytes → List Nat × Bytes
  | b :: rest =>
    if isDigitB b then
      ((b - 0x30) :: (takeDigits rest).1, (takeDigits rest).2)
    else ([], b :: rest)
  | [] => ([], [])

/-- Numeric value of a big-endian digit list. -/
def digitsVal (ds : List Nat) : ℤ :=
  ds.foldl (fun acc d => acc * 10 + (d : ℤ)) 0

/-- Go's optional fractional-second rule after a seconds element: consume
`[.,]ddd…` when present, producing nanoseconds from the first nine digits. -/
def parseFracOpt : Bytes → ℤ × Bytes
  | b :: c :: rest =>
    if (b = 0x2E ∨ b = 0x2C) ∧ isDigitB c then
      let ds := (takeDigits (c :: rest)).1
      let tail := (takeDigits (c :: rest)).2
      (digitsVal (ds.take 9) * 10 ^ (9 - min ds.length 9), tail)
    else (0, b :: c :: rest)
  | s => (0, s)

/-- Parse `2006-01-02`. -/
def parseYMD (s : Bytes) : Option (ℤ × ℤ × ℤ × Bytes) := do
  let (y, s1) ← digit4 s
  let s2 ← lit 0x2D s1
  let (m, s3) ← digit2 s2
  let s4 ← lit 0x2D s3
  let (d, s5) ← digit2 s4
  pure (y, m, d, s5)

/-- Parse `15:04`. -/
def parseHM (s : Bytes) : Option (ℤ × ℤ × Bytes) := do
  let (h, s1) ← digit1or2 s
  let s2 ← lit 0x3A s1
  let (mi, s3) ← digit2 s2
  pure (h, mi, s3)

/-- Parse `15:04:05`. -/
def parseHMS (s : Bytes) : Option (ℤ × ℤ × ℤ × Bytes) := do
  let (h, mi, s1) ← parseHM s
  let s2 ← lit 0x3A s1
  let (ss, s3) ← digit2 s2
  pure (h, mi, ss, s3)

/-- Parse the `Z07:00` zone element: `Z` or `±hh:mm` (offset in seconds). -/
def parseZone : Bytes → Option (ℤ × Bytes)
  | 0x5A :: rest => some (0, rest)
  | b :: rest =>
    if b = 0x2B ∨ b = 0x2D then do
      let (hh, s1) ← digit2 rest
      let s2 ← lit 0x3A s1
      let (mm, s3) ← digit2 s2
      pure ((if b = 0x2D then -1 else 1) * ((hh * 60 + mm) * 60), s3)
    else none
  | [] => none

/-- Go's field range validation during `Parse`. -/
def validCivil (y m d hh mi ss : ℤ) : Prop :=
  1 ≤ m ∧ m ≤ 12 ∧ 1 ≤ d ∧ d ≤ daysInMonth y m ∧
  0 ≤ hh ∧ hh < 24 ∧ 0 ≤ mi ∧ mi < 60 ∧ 0 ≤ ss ∧ ss < 60

instance (y m d hh mi ss : ℤ) : Decidable (validCivil y m d hh mi ss) := by
  unfold validCivil; infer_instance

/-- Build the instant for validated civil fields at a zone offset. -/
def mkGoTime (y m d hh mi ss ns off : ℤ) : GoTime :=
  { sec := civilToDays y m d * 86400 + hh * 3600 + mi * 60 + ss - off, nsec := ns }

/-- Layout `2006-01-02T15:04:05Z07:00` (`time.RFC3339` / `RFC3339Nano`),
with Go's implicit optional fractional seconds. -/
def layoutFullZone (s : Bytes) : Option GoTime := do
  let (y, m, d, s1) ← parseYMD s
  let s2 ← lit 0x54 s1
  let (hh, mi, ss, s3) ← parseHMS s2
  let (ns, s4) := parseFracOpt s3
  let (off, s5) ← parseZone s4
  if s5 = [] ∧ validCivil y m d hh mi ss then pure (mkGoTime y m d hh mi ss ns off)
  else none

/-- Layout `2006-01-02T15:04:05Z` — the `Z` here is a literal byte, the
time is interpreted as UTC. -/
def layoutFullLitZ (s : Bytes) : Option GoTime := do
  let (y, m, d, s1) ← parseYMD s
  let s2 ← lit 0x54 s1
  let (hh, mi, ss, s3) ← parseHMS s2
  let (ns, s4) := parseFracOpt s3
  let s5 ← lit 0x5A s4
  if s5 = [] ∧ validCivil y m d hh mi ss then pure (mkGoTime y m d hh mi ss ns 0)
  else none

/-- Layout `2006-01-02T15:04:05` (no zone; interpreted as UTC by `time.Parse`). -/
def layoutFullNoZone (s : Bytes) : Option GoTime := do
  let (y, m, d, s1) ← parseYMD s
  let s2 ← lit 0x54 s1
  let (hh, mi, ss, s3) ← parseHMS s2
  let (ns, s4) := parseFracOpt s3
  if s4 = [] ∧ validCivil y m d hh mi ss then pure (mkGoTime y m d hh mi ss ns 0)
  else none

/-- Layout `2006-01-02T15:04` (minute precision, no seconds element so no
fractional seconds), interpreted at the zone offset `off` (0 for `time.Parse`,
the local offset for the final `time.ParseInLocation` fallback). -/
def layoutMinute (off : ℤ) (s : Bytes) : Option GoTime :=
  match parseYMD s with
  | none => none
  | some (y, m, d, s1) =>
    match lit 0x54 s1 with
    | none => none
    | some s2 =>
      match parseHM s2 with
      | none => none
      | some (hh, mi, s3) =>
        if s3 = [] ∧ validCivil y m d hh mi 0 then some (mkGoTime y m d hh mi 0 0 off)
        else none

/-- Layout `2006-01-02 15:04:05` (space separator, UTC). -/
def layoutSpaceSep (s : Bytes) : Option GoTime := do
  let (y, m, d, s1) ← parseYMD s
  let s2 ← lit 0x20 s1
  let (hh, mi, ss, s3) ← parseHMS s2
  let (ns, s4) := parseFracOpt s3
  if s4 = [] ∧ validCivil y m d hh mi ss then pure (mkGoTime y m d hh mi ss ns 0)
  else none

/-- Layout `2006-01-02` (bare date, midnight UTC). -/
def layoutDateOnly (s : Bytes) : Option GoTime := do
  let (y, m, d, s1) ← parseYMD s
  if s1 = [] ∧ validCivil y m d 0 0 0 then pure (mkGoTime y m d 0 0 0 0 0)
  else none

/-- First successful entry. -/
def firstSome {α : Type} : List (Option α) → Option α
  | [] => none
  | some a :: _ => some a
  | none :: rest => firstSome rest

/-- The ordered layout attempts of `parseFlexibleTime` (RFC3339 and
RFC3339Nano accept the same strings under Go's generic parser, hence the
repeated first entry). -/
def layoutAttempts (t : Bytes) : List (Option GoTime) :=
  [layoutFullZone t, layoutFullZone t, layoutFullLitZ t, layoutFullNoZone t,
   layoutMinute 0 t, layoutSpaceSep t, layoutDateOnly t]

/-- `parseFlexibleTime` from `main.go`, parameterised by the process's local
zone offset (in seconds): trim spaces, try the UTC layouts in order, then the
minute layout in the local zone, and return the zero time on failure. -/
def parseFlexibleTime (localOff : ℤ) (s : Bytes) : GoTime :=
  match firstSome (layoutAttempts (goTrimSpace s)) with
  | some tm => tm
  | none =>
    match layoutMinute localOff (goTrimSpace s) with
    | some tm => tm
    | none => zeroGoTime

/-- Two-digit zero-padded rendering of a (nonnegative) field. -/
def pad2 (n : ℤ) : Bytes :=
  zeroBytes (2 - (natDecBytes n.natAbs).length) ++ natDecBytes n.natAbs

/-- Go `appendInt(year, 4)`: sign, then digits zero-padded to width 4. -/
def pad4Int (y : ℤ) : Bytes :=
  (if y < 0 then [0x2D] else []) ++
  zeroBytes (4 - (natDecBytes y.natAbs).length) ++ natDecBytes y.natAbs

/-- `t.UTC().Format(time.RFC3339)`: `YYYY-MM-DDTHH:MM:SSZ` (fractional
seconds are dropped by this layout; the UTC offset prints as `Z`). -/
def formatRFC3339 (t : GoTime) : Bytes :=
  let days := Int.fdiv t.sec 86400
  let sod := t.sec - days * 86400
  pad4Int (daysToCivil days).1 ++ [0x2D] ++ pad2 (daysToCivil days).2.1 ++ [0x2D] ++
  pad2 (daysToCivil days).2.2 ++ [0x54] ++ pad2 (Int.fdiv sod 3600) ++ [0x3A] ++
  pad2 (Int.fdiv sod 60 % 60) ++ [0x3A] ++ pad2 (sod % 60) ++ [0x5A]

/-- Date-field normalization shared by Version and NewsItem reshaping:
non-empty input, parse flexibly; on success re-express in canonical UTC form,
on failure (the zero time) keep the original string. -/
def normalizeDate (localOff : ℤ) (dateStr : Bytes) : Bytes :=
  if dateStr = [] then []
  else if (parseFlexibleTime localOff dateStr).isZero then dateStr
  else formatRFC3339 (parseFlexibleTime localOff dateStr)


/-! ## Generic JSON values, compact marshalling, and `getStr` -/

/-- A parsed generic JSON value (Go `interface{}` after `json.Unmarshal`):
numbers are float64 values, objects are the association lists backing Go's
maps (the parser produces key-sorted, duplicate-free lists, mirroring the
sorted iteration `encoding/json` uses when marshalling a map). -/
inductive Json where
  | null
  | bool (b : Bool)
  | num (q : ℚ)
  | str (s : Bytes)
  | arr (elems : List Json)
  | obj (fields : List (Bytes × Json))

/-- Go map indexing `m[k]` over the backing association list. -/
def jlookup : List (Bytes × Json) → Bytes → Option Json
  | [], _ => none
  | (k2, v) :: rest, k => if k2 = k then some v else jlookup rest k

/-- Lowercase hex digit. -/
def hexDigit (n : Nat) : Nat := if n < 10 then 0x30 + n else 0x61 + (n - 10)

/-- A `\u00XX`-style escape for the code point `r`. -/
def escU4 (r : Nat) : Bytes :=
  [0x5C, 0x75, hexDigit (r / 4096 % 16), hexDigit (r / 256 % 16),
   hexDigit (r / 16 % 16), hexDigit (r % 16)]

theorem drop_decode_lt (b : Nat) (rest : Bytes) :
    (List.drop (decodeRune (b :: rest)).2 (b :: rest)).length < (b :: rest).length := by
  have h1 := decodeRune_snd_pos (b :: rest) (by simp)
  simp only [List.length_drop, List.length_cons]
  omega

/-- `encoding/json` string-content escaping (with the default HTML escaping):
`"`/`\` escaped, `\n`/`\r`/`\t` named, other control bytes `\u00xx`,
`<`, `>`, `&` as `\u003c`/`\u003e`/`\u0026`, U+2028/U+2029 escaped, invalid
bytes replaced by the `\ufffd` escape, all other runes copied verbatim. -/
def escapeJsonString : Bytes → Bytes
  | [] => []
  | b :: rest =>
    if b < 0x80 then
      (if b = 0x22 then [0x5C, 0x22]
       else if b = 0x5C then [0x5C, 0x5C]
       else if b = 0x0A then [0x5C, 0x6E]
       else if b = 0x0D then [0x5C, 0x72]
       else if b = 0x09 then [0x5C, 0x74]
       else if b = 0x3C ∨ b = 0x3E ∨ b = 0x26 ∨ b < 0x20 then escU4 b
       else [b]) ++ escapeJsonString rest
    else if (decodeRune (b :: rest)).1 = runeError ∧ (decodeRune (b :: rest)).2 = 1 then
      asciiBytes "\\ufffd" ++ escapeJsonString rest
    else if (decodeRune (b :: rest)).1 = 0x2028 ∨ (decodeRune (b :: rest)).1 = 0x2029 then
      escU4 (decodeRune (b :: rest)).1 ++
        escapeJsonString ((b :: rest).drop (decodeRune (b :: rest)).2)
    else
      (b :: rest).take (decodeRune (b :: rest)).2 ++
        escapeJsonString ((b :: rest).drop (decodeRune (b :: rest)).2)
termination_by s => s.length
decreasing_by
  all_goals simp_wf
  all_goals first
    | (simp only [List.length_cons]; omega)
    | exact drop_decode_lt _ _
    | exact decodeRune_snd_pos _ (by simp)

mutual

/-- Compact `json.Marshal` of a generic value (object fields in list order —
the parser keeps them sorted, matching Go's sorted map marshalling). -/
def marshalC : Json → Bytes
  | .null => asciiBytes "null"
  | .bool b => if b then asciiBytes "true" else asciiBytes "false"
  | .num q => jsonFmtFloat q
  | .str s => 0x22 :: (escapeJsonString s ++ [0x22])
  | .arr es => 0x5B :: (marshalList es ++ [0x5D])
  | .obj fs => 0x7B :: (marshalFields fs ++ [0x7D])

/-- Comma-separated compact marshalling of array elements. -/
def marshalList : List Json → Bytes
  | [] => []
  | [x] => marshalC x
  | x :: y :: xs => marshalC x ++ 0x2C :: marshalList (y :: xs)

/-- Comma-separated compact marshalling of object members. -/
def marshalFields : List (Bytes × Json) → Bytes
  | [] => []
  | [(k, v)] => 0x22 :: (escapeJsonString k ++ [0x22, 0x3A]) ++ marshalC v
  | (k, v) :: f :: fs =>
    0x22 :: (escapeJsonString k ++ [0x22, 0x3A]) ++ marshalC v ++ 0x2C :: marshalFields (f :: fs)

end

/-- `getStr` from `main.go`: the single scalar-extraction chokepoint.
Missing key and explicit null give the empty string; strings are sanitized;
numbers and booleans are stringified with `fmt.Sprintf("%v")`; any other
value is re-marshalled to compact JSON and sanitized. -/
def getStr (m : List (Bytes × Json)) (k : Bytes) : Bytes :=
  match jlookup m k with
  | none => []
  | some .null => []
  | some (.str s) => sanitizeString s
  | some (.num q) => fmtFloatV q
  | some (.bool b) => if b then asciiBytes "true" else asciiBytes "false"
  | some (.arr es) => sanitizeString (marshalC (.arr es))
  | some (.obj fs) => sanitizeString (marshalC (.obj fs))

/-! ## The reshaped entities and the field projector -/

/-- Output `Version` (field order as declared in `main.go`). -/
structure Version where
  version : Bytes
  date : Bytes
  localizedDescription : Bytes
  downloadURL : Bytes
  size : ℤ
  minOSVersion : Bytes

/-- Output `App`.  `marketplaceID`, `patreon` and `buildVersion` have no
field: they are dropped unconditionally.  `appPermissions` is the opaque
JSON value (present iff the key was present). -/
structure App where
  name : Bytes
  bundleIdentifier : Bytes
  developerName : Bytes
  subtitle : Bytes
  localizedDescription : Bytes
  iconURL : Bytes
  tintColor : Bytes
  category : Bytes
  screenshotURLs : List Bytes
  versions : List Version
  appPermissions : Option Json

/-- Output `NewsItem`.  `appID` is opaque (present iff the key was present;
a JSON `null` value behaves like absence under `omitempty`). -/
structure NewsItem where
  title : Bytes
  identifier : Bytes
  caption : Bytes
  date : Bytes
  tintColor : Bytes
  imageURL : Bytes
  notify : Bool
  url : Bytes
  appID : Option Json

/-- Output `Root` (the catalog). -/
structure Root where
  name : Bytes
  subtitle : Bytes
  identifier : Bytes
  sourceURL : Bytes
  description : Bytes
  iconURL : Bytes
  website : Bytes
  patreonURL : Bytes
  headerURL : Bytes
  tintColor : Bytes
  featuredApps : List Bytes
  apps : List App
  news : List NewsItem

/-- Per-element screenshot extraction: a plain string is copied (sanitized);
an object contributes a non-empty `imageURL`, else a non-empty `url`;
anything else is skipped. -/
def screenshotsFromList : List Json → List Bytes
  | [] => []
  | item :: rest =>
    (match item with
     | .str s => [sanitizeString s]
     | .obj fs =>
       if getStr fs (asciiBytes "imageURL") ≠ [] then [getStr fs (asciiBytes "imageURL")]
       else if getStr fs (asciiBytes "url") ≠ [] then [getStr fs (asciiBytes "url")]
       else []
     | _ => []) ++ screenshotsFromList rest

/-- Screenshot handling of an app entry: `screenshotURLs` when the key is
present (and a list), otherwise the legacy `screenshots` key. -/
def appScreenshots (am : List (Bytes × Json)) : List Bytes :=
  match jlookup am (asciiBytes "screenshotURLs") with
  | some (.arr l) => screenshotsFromList l
  | some _ => []
  | none =>
    match jlookup am (asciiBytes "screenshots") with
    | some (.arr l) => screenshotsFromList l
    | _ => []

/-- Reshape one version object. -/
def versionFromJson (localOff : ℤ) (vm : List (Bytes × Json)) : Version :=
  { version := getStr vm (asciiBytes "version")
  , date := normalizeDate localOff (getStr vm (asciiBytes "date"))
  , localizedDescription := getStr vm (asciiBytes "localizedDescription")
  , downloadURL := getStr vm (asciiBytes "downloadURL")
  , size :=
      match jlookup vm (asciiBytes "size") with
      | some (.num n) => truncF64 n
      | _ => 0
  , minOSVersion := getStr vm (asciiBytes "minOSVersion") }

/-- The `versions` loop: non-object elements are skipped. -/
def versionsList (localOff : ℤ) : List Json → List Version
  | [] => []
  | .obj vm :: rest => versionFromJson localOff vm :: versionsList localOff rest
  | _ :: rest => versionsList localOff rest

/-- Reshape one app entry. -/
def appFromJson (localOff : ℤ) (am : List (Bytes × Json)) : App :=
  { name := getStr am (asciiBytes "name")
  , bundleIdentifier := getStr am (asciiBytes "bundleIdentifier")
  , developerName := getStr am (asciiBytes "developerName")
  , subtitle := getStr am (asciiBytes "subtitle")
  , localizedDescription := getStr am (asciiBytes "localizedDescription")
  , iconURL := getStr am (asciiBytes "iconURL")
  , tintColor := getStr am (asciiBytes "tintColor")
  , category := getStr am (asciiBytes "category")
  , screenshotURLs := appScreenshots am
  , versions :=
      match jlookup am (asciiBytes "versions") with
      | some (.arr l) => versionsList localOff l
      | _ => []
  , appPermissions := jlookup am (asciiBytes "appPermissions") }

/-- The `apps` loop: non-object elements are skipped. -/
def appsList (localOff : ℤ) : List Json → List App
  | [] => []
  | .obj am :: rest => appFromJson localOff am :: appsList localOff rest
  | _ :: rest => appsList localOff rest

/-- Reshape one news item. -/
def newsFromJson (localOff : ℤ) (nm : List (Bytes × Json)) : NewsItem :=
  { title := getStr nm (asciiBytes "title")
  , identifier := getStr nm (asciiBytes "identifier")
  , caption := getStr nm (asciiBytes "caption")
  , tintColor := getStr nm (asciiBytes "tintColor")
  , imageURL := getStr nm (asciiBytes "imageURL")
  , url := getStr nm (asciiBytes "url")
  , notify :=
      match jlookup nm (asciiBytes "notify") with
      | some (.bool b) => b
      | _ => false
  , appID := jlookup nm (asciiBytes "appID")
  , date :=
      match jlookup nm (asciiBytes "date") with
      | some (.str s) => normalizeDate localOff s
      | _ => [] }

/-- The `news` loop: non-object elements are skipped. -/
def newsList (localOff : ℤ) : List Json → List NewsItem
  | [] => []
  | .obj nm :: rest => newsFromJson localOff nm :: newsList localOff rest
  | _ :: rest => newsList localOff rest

/-- The `featuredApps` loop: only plain strings are kept (sanitized). -/
def featuredList : List Json → List Bytes
  | [] => []
  | .str s :: rest => sanitizeString s :: featuredList rest
  | _ :: rest => featuredList rest

/-- The whole field projector of `main`: reshape the parsed root object. -/
def rootFromJson (localOff : ℤ) (raw : List (Bytes × Json)) : Root :=
  { name := getStr raw (asciiBytes "name")
  , subtitle := getStr raw (asciiBytes "subtitle")
  , identifier := defaultIfEmpty (getStr raw (asciiBytes "identifier")) hardcodedIdentifier
  , sourceURL := defaultIfEmpty (getStr raw (asciiBytes "sourceURL")) hardcodedSourceURL
  , description := getStr raw (asciiBytes "description")
  , iconURL := getStr raw (asciiBytes "iconURL")
  , website := getStr raw (asciiBytes "website")
  , patreonURL := getStr raw (asciiBytes "patreonURL")
  , headerURL := getStr raw (asciiBytes "headerURL")
  , tintColor := getStr raw (asciiBytes "tintColor")
  , featuredApps :=
      match jlookup raw (asciiBytes "featuredApps") with
      | some (.arr l) => featuredList l
      | _ => []
  , apps :=
      match jlookup raw (asciiBytes "apps") with
      | some (.arr l) => appsList localOff l
      | _ => []
  , news :=
      match jlookup raw (asciiBytes "news") with
      | some (.arr l) => newsList localOff l
      | _ => [] }


/-! ## `json.MarshalIndent(out, "", "  ")`: the persisted output layout -/

/-- Indentation prefix at nesting depth `d` (two spaces per level). -/
def renderInd (d : Nat) : Bytes := List.replicate (2 * d) 0x20

/-- A JSON string literal. -/
def strJson (s : Bytes) : Bytes := 0x22 :: (escapeJsonString s ++ [0x22])

/-- `"key": ` prefix of an object member. -/
def keyPrefix (k : Bytes) : Bytes := strJson k ++ [0x3A, 0x20]

/-- Indented object layout: members one per line at depth `d + 1`, closing
brace at depth `d`; the empty object stays `{}`. -/
def renderObjB (d : Nat) (fs : List Bytes) : Bytes :=
  if fs = [] then [0x7B, 0x7D]
  else [0x7B, 0x0A] ++ List.intercalate [0x2C, 0x0A] (fs.map (fun f => renderInd (d + 1) ++ f)) ++
       [0x0A] ++ renderInd d ++ [0x7D]

/-- Indented array layout (mirror of `renderObjB`). -/
def renderArrB (d : Nat) (items : List Bytes) : Bytes :=
  if items = [] then [0x5B, 0x5D]
  else [0x5B, 0x0A] ++ List.intercalate [0x2C, 0x0A] (items.map (fun f => renderInd (d + 1) ++ f)) ++
       [0x0A] ++ renderInd d ++ [0x5D]

mutual

/-- Indented serialization of an opaque JSON value sitting at depth `d`
(how `MarshalIndent` lays out a `json.RawMessage` or `interface{}` field). -/
def indentJson (d : Nat) : Json → Bytes
  | .null => asciiBytes "null"
  | .bool b => if b then asciiBytes "true" else asciiBytes "false"
  | .num q => jsonFmtFloat q
  | .str s => strJson s
  | .arr es => renderArrB d (indentJsonArr (d + 1) es)
  | .obj fs => renderObjB d (indentJsonFields (d + 1) fs)

/-- Array elements rendered at depth `d`. -/
def indentJsonArr (d : Nat) : List Json → List Bytes
  | [] => []
  | x :: xs => indentJson d x :: indentJsonArr d xs

/-- Object members rendered at depth `d`. -/
def indentJsonFields (d : Nat) : List (Bytes × Json) → List Bytes
  | [] => []
  | (k, v) :: xs => (keyPrefix k ++ indentJson d v) :: indentJsonFields d xs

end

/-- The emitted members of a `Version` (all tagged `omitempty`; `d` is the
depth at which member lines sit). -/
def versionFields (d : Nat) (v : Version) : List Bytes :=
  (if v.version = [] then [] else [keyPrefix (asciiBytes "version") ++ strJson v.version]) ++
  (if v.date = [] then [] else [keyPrefix (asciiBytes "date") ++ strJson v.date]) ++
  (if v.localizedDescription = [] then []
   else [keyPrefix (asciiBytes "localizedDescription") ++ strJson v.localizedDescription]) ++
  (if v.downloadURL = [] then [] else [keyPrefix (asciiBytes "downloadURL") ++ strJson v.downloadURL]) ++
  (if v.size = 0 then [] else [keyPrefix (asciiBytes "size") ++ intDecBytes v.size]) ++
  (if v.minOSVersion = [] then []
   else [keyPrefix (asciiBytes "minOSVersion") ++ strJson v.minOSVersion])

/-- A `Version` object at depth `d`. -/
def versionRender (d : Nat) (v : Version) : Bytes := renderObjB d (versionFields (d + 1) v)

/-- The emitted members of an `App`. -/
def appFields (d : Nat) (a : App) : List Bytes :=
  (if a.name = [] then [] else [keyPrefix (asciiBytes "name") ++ strJson a.name]) ++
  (if a.bundleIdentifier = [] then []
   else [keyPrefix (asciiBytes "bundleIdentifier") ++ strJson a.bundleIdentifier]) ++
  (if a.developerName = [] then []
   else [keyPrefix (asciiBytes "developerName") ++ strJson a.developerName]) ++
  (if a.subtitle = [] then [] else [keyPrefix (asciiBytes "subtitle") ++ strJson a.subtitle]) ++
  (if a.localizedDescription = [] then []
   else [keyPrefix (asciiBytes "localizedDescription") ++ strJson a.localizedDescription]) ++
  (if a.iconURL = [] then [] else [keyPrefix (asciiBytes "iconURL") ++ strJson a.iconURL]) ++
  (if a.tintColor = [] then [] else [keyPrefix (asciiBytes "tintColor") ++ strJson a.tintColor]) ++
  (if a.category = [] then [] else [keyPrefix (asciiBytes "category") ++ strJson a.category]) ++
  (if a.screenshotURLs = [] then []
   else [keyPrefix (asciiBytes "screenshotURLs") ++
         renderArrB d (a.screenshotURLs.map strJson)]) ++
  (if a.versions.isEmpty then []
   else [keyPrefix (asciiBytes "versions") ++
         renderArrB d (a.versions.map (versionRender (d + 1)))]) ++
  (match a.appPermissions with
   | none => []
   | some v => [keyPrefix (asciiBytes "appPermissions") ++ indentJson d v])

/-- An `App` object at depth `d`. -/
def appRender (d : Nat) (a : App) : Bytes := renderObjB d (appFields (d + 1) a)

/-- The emitted members of a `NewsItem` (`appID` is an `interface{}` with
`omitempty`: a stored JSON null is a nil interface and is omitted). -/
def newsFields (d : Nat) (n : NewsItem) : List Bytes :=
  (if n.title = [] then [] else [keyPrefix (asciiBytes "title") ++ strJson n.title]) ++
  (if n.identifier = [] then [] else [keyPrefix (asciiBytes "identifier") ++ strJson n.identifier]) ++
  (if n.caption = [] then [] else [keyPrefix (asciiBytes "caption") ++ strJson n.caption]) ++
  (if n.date = [] then [] else [keyPrefix (asciiBytes "date") ++ strJson n.date]) ++
  (if n.tintColor = [] then [] else [keyPrefix (asciiBytes "tintColor") ++ strJson n.tintColor]) ++
  (if n.imageURL = [] then [] else [keyPrefix (asciiBytes "imageURL") ++ strJson n.imageURL]) ++
  (if n.notify = false then [] else [keyPrefix (asciiBytes "notify") ++ asciiBytes "true"]) ++
  (if n.url = [] then [] else [keyPrefix (asciiBytes "url") ++ strJson n.url]) ++
  (match n.appID with
   | none => []
   | some .null => []
   | some v => [keyPrefix (asciiBytes "appID") ++ indentJson d v])

/-- A `NewsItem` object at depth `d`. -/
def newsRender (d : Nat) (n : NewsItem) : Bytes := renderObjB d (newsFields (d + 1) n)

/-- The emitted members of the `Root` catalog. -/
def rootFields (d : Nat) (r : Root) : List Bytes :=
  (if r.name = [] then [] else [keyPrefix (asciiBytes "name") ++ strJson r.name]) ++
  (if r.subtitle = [] then [] else [keyPrefix (asciiBytes "subtitle") ++ strJson r.subtitle]) ++
  (if r.identifier = [] then [] else [keyPrefix (asciiBytes "identifier") ++ strJson r.identifier]) ++
  (if r.sourceURL = [] then [] else [keyPrefix (asciiBytes "sourceURL") ++ strJson r.sourceURL]) ++
  (if r.description = [] then [] else [keyPrefix (asciiBytes "description") ++ strJson r.description]) ++
  (if r.iconURL = [] then [] else [keyPrefix (asciiBytes "iconURL") ++ strJson r.iconURL]) ++
  (if r.website = [] then [] else [keyPrefix (asciiBytes "website") ++ strJson r.website]) ++
  (if r.patreonURL = [] then [] else [keyPrefix (asciiBytes "patreonURL") ++ strJson r.patreonURL]) ++
  (if r.headerURL = [] then [] else [keyPrefix (asciiBytes "headerURL") ++ strJson r.headerURL]) ++
  (if r.tintColor = [] then [] else [keyPrefix (asciiBytes "tintColor") ++ strJson r.tintColor]) ++
  (if r.featuredApps = [] then []
   else [keyPrefix (asciiBytes "featuredApps") ++ renderArrB d (r.featuredApps.map strJson)]) ++
  (if r.apps.isEmpty then []
   else [keyPrefix (asciiBytes "apps") ++ renderArrB d (r.apps.map (appRender (d + 1)))]) ++
  (if r.news.isEmpty then []
   else [keyPrefix (asciiBytes "news") ++ renderArrB d (r.news.map (newsRender (d + 1)))])

/-- The bytes `main` writes to `output.json`:
`json.MarshalIndent(out, "", "  ")` of the reshaped catalog. -/
def rootRender (r : Root) : Bytes := renderObjB 0 (rootFields 1 r)


/-! ## Claims about defaulting, coercion, screenshots, sizes and skipping -/

theorem goTrimSpace_nil : goTrimSpace [] = [] := by
  simp [goTrimSpace, segsGo]

theorem defaultIfEmpty_blank {s d : Bytes} (h : goTrimSpace s = []) :
    defaultIfEmpty s d = d := by
  rw [defaultIfEmpty, if_pos h]

theorem defaultIfEmpty_ne_nil {s d : Bytes} (hd : d ≠ []) : defaultIfEmpty s d ≠ [] := by
  rw [defaultIfEmpty]
  split
  · exact hd
  · rename_i h
    intro hs
    exact h (by rw [hs, goTrimSpace_nil])

theorem getStr_absent {m : List (Bytes × Json)} {k : Bytes} (h : jlookup m k = none) :
    getStr m k = [] := by
  rw [getStr, h]

theorem getStr_null {m : List (Bytes × Json)} {k : Bytes} (h : jlookup m k = some .null) :
    getStr m k = [] := by
  rw [getStr, h]

/-- C2.  Defaulting law: whenever the root `identifier` key is absent, null,
or coerces to a blank/whitespace-only string, the output identifier is the
fixed default constant; the same law holds for `sourceURL`; consequently the
output identifier and source URL are never empty. -/
theorem claim_C2_defaulting :
    (∀ (off : ℤ) (raw : List (Bytes × Json)),
      jlookup raw (asciiBytes "identifier") = none ∨
      jlookup raw (asciiBytes "identifier") = some .null ∨
      goTrimSpace (getStr raw (asciiBytes "identifier")) = [] →
      (rootFromJson off raw).identifier = hardcodedIdentifier) ∧
    (∀ (off : ℤ) (raw : List (Bytes × Json)),
      jlookup raw (asciiBytes "sourceURL") = none ∨
      jlookup raw (asciiBytes "sourceURL") = some .null ∨
      goTrimSpace (getStr raw (asciiBytes "sourceURL")) = [] →
      (rootFromJson off raw).sourceURL = hardcodedSourceURL) ∧
    (∀ (off : ℤ) (raw : List (Bytes × Json)),
      (rootFromJson off raw).identifier ≠ [] ∧ (rootFromJson off raw).sourceURL ≠ []) := by
  refine ⟨?_, ?_, ?_⟩
  · intro off raw h
    show defaultIfEmpty (getStr raw (asciiBytes "identifier")) hardcodedIdentifier = _
    rcases h with h | h | h
    · rw [getStr_absent h]
      exact defaultIfEmpty_blank goTrimSpace_nil
    · rw [getStr_null h]
      exact defaultIfEmpty_blank goTrimSpace_nil
    · exact defaultIfEmpty_blank h
  · intro off raw h
    show defaultIfEmpty (getStr raw (asciiBytes "sourceURL")) hardcodedSourceURL = _
    rcases h with h | h | h
    · rw [getStr_absent h]
      exact defaultIfEmpty_blank goTrimSpace_nil
    · rw [getStr_null h]
      exact defaultIfEmpty_blank goTrimSpace_nil
    · exact defaultIfEmpty_blank h
  · intro off raw
    exact ⟨defaultIfEmpty_ne_nil (by decide), defaultIfEmpty_ne_nil (by decide)⟩

/-- Witness for C2 at a concrete input: an object with a null `identifier`
and a blank `sourceURL` gets both defaults, and they are non-empty. -/
theorem claim_C2_defaulting_witness :
    (rootFromJson 0 [(asciiBytes "identifier", Json.null),
                     (asciiBytes "sourceURL", Json.str (asciiBytes "  "))]).identifier =
      hardcodedIdentifier ∧
    (rootFromJson 0 [(asciiBytes "identifier", Json.null),
                     (asciiBytes "sourceURL", Json.str (asciiBytes "  "))]).sourceURL =
      hardcodedSourceURL ∧
    (rootFromJson 0 [(asciiBytes "identifier", Json.null),
                     (asciiBytes "sourceURL", Json.str (asciiBytes "  "))]).identifier ≠ [] :=
  ⟨claim_C2_defaulting.1 0 _ (Or.inr (Or.inl (by rfl))),
   claim_C2_defaulting.2.1 0 _ (Or.inr (Or.inr (by
     simp [getStr, jlookup, sanitizeString, validUtf8, decodeRune, goTrimSpace, segsGo,
       segIsSpace, isSpaceRune, asciiBytes, runeError]))),
   (claim_C2_defaulting.2.2 0 _).1⟩

/-- C5 fails on the code: the NewsItem `date` is NOT routed through the
uniform coercion chokepoint.  At the concrete input `{"date": true}` the
claim predicts the coerced canonical string `"true"` kept verbatim (it is not
a parseable date), but the reshaper drops the field entirely. -/
theorem claim_C5_chokepoint_cex :
    (newsFromJson 0 [(asciiBytes "date", Json.bool true)]).date = [] ∧
    getStr [(asciiBytes "date", Json.bool true)] (asciiBytes "date") = asciiBytes "true" ∧
    normalizeDate 0 (asciiBytes "true") = asciiBytes "true" ∧
    ([] : Bytes) ≠ asciiBytes "true" := by
  refine ⟨rfl, rfl, ?_, by decide⟩
  simp [normalizeDate, parseFlexibleTime, goTrimSpace, segsGo, decodeRune, segIsSpace,
    isSpaceRune, layoutAttempts, layoutFullZone, layoutFullLitZ, layoutFullNoZone,
    layoutMinute, layoutSpaceSep, layoutDateOnly, firstSome, parseYMD, digit4,
    isDigitB, asciiBytes, runeError, acceptLo, acceptHi, isCont, GoTime.isZero]

/-- C5 amended: every string-valued output field except the NewsItem `date`
is extracted through the single coercion chokepoint `getStr`; the Version
`date` is coerced there and then date-normalized (unparseable values kept
verbatim), while the NewsItem `date` is copied (and date-normalized) only
when the JSON value is literally a string, any non-string value leaving the
field empty/omitted. -/
theorem claim_C5_chokepoint_amended :
    (∀ (off : ℤ) (vm : List (Bytes × Json)),
      (versionFromJson off vm).date = normalizeDate off (getStr vm (asciiBytes "date"))) ∧
    (∀ (off : ℤ) (nm : List (Bytes × Json)) (s : Bytes),
      jlookup nm (asciiBytes "date") = some (.str s) →
      (newsFromJson off nm).date = normalizeDate off s) ∧
    (∀ (off : ℤ) (nm : List (Bytes × Json)) (v : Json),
      jlookup nm (asciiBytes "date") = some v → (∀ s, v ≠ .str s) →
      (newsFromJson off nm).date = []) ∧
    (∀ (off : ℤ) (nm : List (Bytes × Json)),
      jlookup nm (asciiBytes "date") = none → (newsFromJson off nm).date = []) := by
  refine ⟨fun off vm => rfl, ?_, ?_, ?_⟩
  · intro off nm s h
    show (match jlookup nm (asciiBytes "date") with
          | some (.str s) => normalizeDate off s
          | _ => []) = _
    rw [h]
  · intro off nm v h hv
    show (match jlookup nm (asciiBytes "date") with
          | some (.str s) => normalizeDate off s
          | _ => []) = _
    rw [h]
    rcases v with _ | b | q | s | es | fs
    · rfl
    · rfl
    · rfl
    · exact absurd rfl (hv s)
    · rfl
    · rfl
  · intro off nm h
    show (match jlookup nm (asciiBytes "date") with
          | some (.str s) => normalizeDate off s
          | _ => []) = _
    rw [h]

/-- Witness for C5 (amended) at concrete inputs: a numeric Version `date`
is coerced and kept verbatim, a numeric NewsItem `date` is dropped. -/
theorem claim_C5_chokepoint_amended_witness :
    (newsFromJson 0 [(asciiBytes "date", Json.num 7)]).date = [] ∧
    (newsFromJson 0 [(asciiBytes "t", Json.null)]).date = [] ∧
    (newsFromJson 0 [(asciiBytes "date", Json.str (asciiBytes "x"))]).date =
      normalizeDate 0 (asciiBytes "x") ∧
    (versionFromJson 0 [(asciiBytes "date", Json.num 7)]).date =
      normalizeDate 0 (getStr [(asciiBytes "date", Json.num 7)] (asciiBytes "date")) :=
  ⟨claim_C5_chokepoint_amended.2.2.1 0 _ (Json.num 7) rfl (fun s => by simp),
   claim_C5_chokepoint_amended.2.2.2 0 _ rfl,
   claim_C5_chokepoint_amended.2.1 0 _ (asciiBytes "x") rfl,
   claim_C5_chokepoint_amended.1 0 _⟩

/-- C8.  Screenshot extraction: when the `screenshotURLs` key is present the
legacy `screenshots` key is never consulted (the result is as if the entry
contained only `screenshotURLs`); when it is absent the same per-element rule
runs on `screenshots`; the per-element rule copies plain strings, prefers a
non-empty `imageURL` over a non-empty `url` for objects and skips everything
else; and the spec's concrete vector extracts `["a", "b"]`. -/
theorem claim_C8_screenshots :
    (∀ (am : List (Bytes × Json)) (v : Json),
      jlookup am (asciiBytes "screenshotURLs") = some v →
      appScreenshots am = appScreenshots [(asciiBytes "screenshotURLs", v)]) ∧
    (∀ (am : List (Bytes × Json)) (w : Json),
      jlookup am (asciiBytes "screenshotURLs") = none →
      jlookup am (asciiBytes "screenshots") = some w →
      appScreenshots am = appScreenshots [(asciiBytes "screenshots", w)]) ∧
    (∀ l : List Json,
      screenshotsFromList l = l.filterMap (fun item =>
        match item with
        | .str s => some (sanitizeString s)
        | .obj fs =>
          if getStr fs (asciiBytes "imageURL") ≠ [] then some (getStr fs (asciiBytes "imageURL"))
          else if getStr fs (asciiBytes "url") ≠ [] then some (getStr fs (asciiBytes "url"))
          else none
        | _ => none)) ∧
    appScreenshots [(asciiBytes "screenshots", Json.arr
      [.obj [(asciiBytes "imageURL", .str (asciiBytes "a"))],
       .obj [(asciiBytes "url", .str (asciiBytes "b"))],
       .obj [(asciiBytes "imageURL", .str []), (asciiBytes "url", .str [])]])] =
      [asciiBytes "a", asciiBytes "b"] := by
  refine ⟨?_, ?_, ?_, ?_⟩
  · intro am v h
    rw [appScreenshots, h]
    rw [appScreenshots]
    rw [show jlookup [(asciiBytes "screenshotURLs", v)] (asciiBytes "screenshotURLs") = some v
        from by rw [jlookup, if_pos rfl]]
    rcases v with _ | b | q | s2 | es | fs <;> rfl
  · intro am w h h2
    rw [appScreenshots, h, h2]
    rw [appScreenshots]
    rw [show jlookup [(asciiBytes "screenshots", w)] (asciiBytes "screenshotURLs") = none
        from by rw [jlookup, if_neg (by decide)]; rfl]
    rw [show jlookup [(asciiBytes "screenshots", w)] (asciiBytes "screenshots") = some w
        from by rw [jlookup, if_pos rfl]]
  · intro l
    induction l with
    | nil => rfl
    | cons item rest ih =>
      rcases item with _ | b | q | s | es | fs <;>
        simp only [screenshotsFromList, List.filterMap_cons, ih] <;> try rfl
      split
      · simp
      · split
        · simp
        · simp
  · simp [appScreenshots, jlookup, screenshotsFromList, getStr, sanitizeString, validUtf8,
      decodeRune, asciiBytes, runeError]

/-- Witness for C8 at concrete inputs: presence of `screenshotURLs` makes the
legacy key irrelevant, and extraction follows the element rule. -/
theorem claim_C8_screenshots_witness :
    appScreenshots [(asciiBytes "screenshotURLs", Json.arr [.str (asciiBytes "s1")]),
                    (asciiBytes "screenshots", Json.arr [.str (asciiBytes "legacy")])] =
      appScreenshots [(asciiBytes "screenshotURLs", Json.arr [.str (asciiBytes "s1")])] ∧
    appScreenshots [(asciiBytes "screenshots", Json.arr
      [.obj [(asciiBytes "imageURL", .str (asciiBytes "a"))],
       .obj [(asciiBytes "url", .str (asciiBytes "b"))],
       .obj [(asciiBytes "imageURL", .str []), (asciiBytes "url", .str [])]])] =
      [asciiBytes "a", asciiBytes "b"] :=
  ⟨claim_C8_screenshots.1 _ (Json.arr [.str (asciiBytes "s1")]) rfl,
   claim_C8_screenshots.2.2.2⟩

/-- Truncation toward zero: magnitude shrinks by less than one and the sign
is preserved — this pins `truncF64` as dropping the fractional part. -/
theorem truncF64_spec (n : ℚ) :
    |(truncF64 n : ℚ)| ≤ |n| ∧ |n| < |(truncF64 n : ℚ)| + 1 ∧ 0 ≤ (truncF64 n : ℚ) * n := by
  rw [truncF64]
  by_cases hq : 0 ≤ n
  · rw [if_pos hq]
    have h0 : (0:ℚ) ≤ (⌊n⌋ : ℚ) := by exact_mod_cast Int.floor_nonneg.mpr hq
    rw [abs_of_nonneg hq, abs_of_nonneg h0]
    exact ⟨Int.floor_le n, Int.lt_floor_add_one n, mul_nonneg h0 hq⟩
  · rw [if_neg hq]
    push_neg at hq
    have h1 : (0:ℚ) ≤ -n := by linarith
    have h0 : (0:ℚ) ≤ (⌊-n⌋ : ℚ) := by exact_mod_cast Int.floor_nonneg.mpr h1
    have hfl : ((-⌊-n⌋ : ℤ) : ℚ) = -(⌊-n⌋ : ℚ) := by push_cast; ring
    rw [hfl, abs_neg, abs_of_neg hq, abs_of_nonneg h0]
    refine ⟨Int.floor_le (-n), Int.lt_floor_add_one (-n), ?_⟩
    nlinarith [mul_nonneg h0 h1]

/-- C9.  Size coercion: a numeric `size` yields the truncation toward zero of
the float64 value (under in-range hypotheses — out-of-range `int64`
conversions are implementation-specific in Go); in particular `1048576.0`
yields `1048576`; an absent or non-numeric `size` yields zero, and a zero
size is omitted from the serialized version object entirely. -/
theorem claim_C9_size :
    (∀ (off : ℤ) (vm : List (Bytes × Json)) (n : ℚ),
      jlookup vm (asciiBytes "size") = some (.num n) →
      -(2 : ℤ) ^ 63 ≤ truncF64 n → truncF64 n < 2 ^ 63 →
      (versionFromJson off vm).size = truncF64 n ∧
      |(truncF64 n : ℚ)| ≤ |n| ∧ |n| < |(truncF64 n : ℚ)| + 1 ∧
      0 ≤ (truncF64 n : ℚ) * n) ∧
    (versionFromJson 0 [(asciiBytes "size", Json.num 1048576)]).size = 1048576 ∧
    (∀ (off : ℤ) (vm : List (Bytes × Json)),
      jlookup vm (asciiBytes "size") = none → (versionFromJson off vm).size = 0) ∧
    (∀ (off : ℤ) (vm : List (Bytes × Json)) (v : Json),
      jlookup vm (asciiBytes "size") = some v → (∀ q, v ≠ .num q) →
      (versionFromJson off vm).size = 0) ∧
    (∀ (d : Nat) (w : Version), w.size = 0 → versionFields d w =
      (if w.version = [] then [] else [keyPrefix (asciiBytes "version") ++ strJson w.version]) ++
      (if w.date = [] then [] else [keyPrefix (asciiBytes "date") ++ strJson w.date]) ++
      (if w.localizedDescription = [] then []
       else [keyPrefix (asciiBytes "localizedDescription") ++ strJson w.localizedDescription]) ++
      (if w.downloadURL = [] then []
       else [keyPrefix (asciiBytes "downloadURL") ++ strJson w.downloadURL]) ++
      (if w.minOSVersion = [] then []
       else [keyPrefix (asciiBytes "minOSVersion") ++ strJson w.minOSVersion])) := by
  refine ⟨?_, rfl, ?_, ?_, ?_⟩
  · intro off vm n h hlo hhi
    have hs : (versionFromJson off vm).size = truncF64 n := by
      show (match jlookup vm (asciiBytes "size") with
            | some (.num n) => truncF64 n
            | _ => 0) = _
      rw [h]
    exact ⟨hs, truncF64_spec n⟩
  · intro off vm h
    show (match jlookup vm (asciiBytes "size") with
          | some (.num n) => truncF64 n
          | _ => 0) = (0 : ℤ)
    rw [h]
  · intro off vm v h hv
    show (match jlookup vm (asciiBytes "size") with
          | some (.num n) => truncF64 n
          | _ => 0) = (0 : ℤ)
    rw [h]
    rcases v with _ | b | q | s2 | es | fs
    · rfl
    · rfl
    · exact absurd rfl (hv q)
    · rfl
    · rfl
    · rfl
  · intro d w h
    simp [versionFields, h]

/-- Witness for C9 at concrete inputs. -/
theorem claim_C9_size_witness :
    (versionFromJson 0 [(asciiBytes "size", Json.num 1048576)]).size = truncF64 1048576 ∧
    (versionFromJson 0 [(asciiBytes "n", Json.null)]).size = 0 ∧
    (versionFromJson 0 [(asciiBytes "size", Json.str (asciiBytes "x"))]).size = 0 ∧
    versionFields 1 { version := asciiBytes "1.0", date := [], localizedDescription := [],
                      downloadURL := [], size := 0, minOSVersion := [] } =
      [keyPrefix (asciiBytes "version") ++ strJson (asciiBytes "1.0")] :=
  ⟨(claim_C9_size.1 0 [(asciiBytes "size", Json.num 1048576)] 1048576 rfl
      (by decide) (by decide)).1,
   claim_C9_size.2.2.1 0 [(asciiBytes "n", Json.null)] rfl,
   claim_C9_size.2.2.2.1 0 [(asciiBytes "size", Json.str (asciiBytes "x"))]
     (Json.str (asciiBytes "x")) rfl (fun q => by simp),
   by
     have h := claim_C9_size.2.2.2.2 1
       { version := asciiBytes "1.0", date := [], localizedDescription := [],
         downloadURL := [], size := 0, minOSVersion := [] } rfl
     simpa using h⟩

/-- C10.  Malformed-element skip with order preservation: each of the three
entity loops keeps exactly the reshaped object elements in their original
order (a `filterMap` over the input array), and the spec's concrete vector —
an `apps` array with a string between two objects — yields exactly the two
reshaped apps in order. -/
theorem claim_C10_skip :
    (∀ (off : ℤ) (l : List Json),
      appsList off l = l.filterMap (fun a =>
        match a with | .obj am => some (appFromJson off am) | _ => none)) ∧
    (∀ (off : ℤ) (l : List Json),
      versionsList off l = l.filterMap (fun a =>
        match a with | .obj vm => some (versionFromJson off vm) | _ => none)) ∧
    (∀ (off : ℤ) (l : List Json),
      newsList off l = l.filterMap (fun a =>
        match a with | .obj nm => some (newsFromJson off nm) | _ => none)) ∧
    (rootFromJson 0 [(asciiBytes "apps", Json.arr
      [.obj [(asciiBytes "name", .str (asciiBytes "A"))],
       .str (asciiBytes "junk"),
       .obj [(asciiBytes "name", .str (asciiBytes "B"))]])]).apps =
      [appFromJson 0 [(asciiBytes "name", .str (asciiBytes "A"))],
       appFromJson 0 [(asciiBytes "name", .str (asciiBytes "B"))]] := by
  refine ⟨?_, ?_, ?_, rfl⟩
  · intro off l
    induction l with
    | nil => rfl
    | cons a rest ih =>
      rcases a with _ | b | q | s2 | es | fs <;>
        simp only [appsList, List.filterMap_cons, ih]
  · intro off l
    induction l with
    | nil => rfl
    | cons a rest ih =>
      rcases a with _ | b | q | s2 | es | fs <;>
        simp only [versionsList, List.filterMap_cons, ih]
  · intro off l
    induction l with
    | nil => rfl
    | cons a rest ih =>
      rcases a with _ | b | q | s2 | es | fs <;>
        simp only [newsList, List.filterMap_cons, ih]

/-- Witness for C10 at a concrete input (the loops applied to a mixed list). -/
theorem claim_C10_skip_witness :
    appsList 0 [Json.str (asciiBytes "junk"), Json.obj [], Json.num 3, Json.obj []] =
      ([Json.obj [], Json.num 3, Json.obj []] : List Json).filterMap (fun a =>
        match a with | .obj am => some (appFromJson 0 am) | _ => none) := by
  have h := claim_C10_skip.1 0
    [Json.str (asciiBytes "junk"), Json.obj [], Json.num 3, Json.obj []]
  simpa using h

/-! ## Claims about the flexible date parser -/

set_option maxHeartbeats 4000000 in
/-- C3.  Date canonicalization on the four spec vectors, through both the
Version and the NewsItem date path, for every local-zone offset:
`"2023-01-05"` → `"2023-01-05T00:00:00Z"`, `"2023-01-05 14:30:00"` →
`"2023-01-05T14:30:00Z"`, `"2023-01-05T14:30:00+02:00"` →
`"2023-01-05T12:30:00Z"`, and the unparseable `"not-a-date"` is kept
verbatim. -/
theorem claim_C3_dates : ∀ off : ℤ,
    (versionFromJson off [(asciiBytes "date", Json.str (asciiBytes "2023-01-05"))]).date =
      asciiBytes "2023-01-05T00:00:00Z" ∧
    (versionFromJson off [(asciiBytes "date", Json.str (asciiBytes "2023-01-05 14:30:00"))]).date =
      asciiBytes "2023-01-05T14:30:00Z" ∧
    (versionFromJson off
        [(asciiBytes "date", Json.str (asciiBytes "2023-01-05T14:30:00+02:00"))]).date =
      asciiBytes "2023-01-05T12:30:00Z" ∧
    (versionFromJson off [(asciiBytes "date", Json.str (asciiBytes "not-a-date"))]).date =
      asciiBytes "not-a-date" ∧
    (newsFromJson off [(asciiBytes "date", Json.str (asciiBytes "2023-01-05"))]).date =
      asciiBytes "2023-01-05T00:00:00Z" ∧
    (newsFromJson off [(asciiBytes "date", Json.str (asciiBytes "2023-01-05 14:30:00"))]).date =
      asciiBytes "2023-01-05T14:30:00Z" ∧
    (newsFromJson off
        [(asciiBytes "date", Json.str (asciiBytes "2023-01-05T14:30:00+02:00"))]).date =
      asciiBytes "2023-01-05T12:30:00Z" ∧
    (newsFromJson off [(asciiBytes "date", Json.str (asciiBytes "not-a-date"))]).date =
      asciiBytes "not-a-date" := by
  intro off
  refine ⟨?_, ?_, ?_, ?_, ?_, ?_, ?_, ?_⟩ <;>
    simp [versionFromJson, newsFromJson, normalizeDate, parseFlexibleTime, goTrimSpace, segsGo, decodeRune, segIsSpace,
    isSpaceRune, layoutAttempts, layoutFullZone, layoutFullLitZ, layoutFullNoZone,
    layoutMinute, layoutSpaceSep, layoutDateOnly, firstSome, parseYMD, parseHM, parseHMS,
    digit4, digit2, digit1or2, lit, isDigitB, parseFracOpt, parseZone, validCivil, mkGoTime,
    civilToDays, daysToCivil, daysInMonth, isLeap, GoTime.isZero, zeroGoTime, zeroTimeSec,
    formatRFC3339, pad2, pad4Int, natDecBytes, digitsRev, zeroBytes, asciiBytes, runeError,
    acceptLo, acceptHi, isCont, takeDigits, digitsVal, getStr, jlookup, sanitizeString,
    validUtf8]

/-- Witness for C3 at the concrete offset 3600 (one hour east of UTC). -/
theorem claim_C3_dates_witness :
    (versionFromJson 3600 [(asciiBytes "date", Json.str (asciiBytes "2023-01-05"))]).date =
      asciiBytes "2023-01-05T00:00:00Z" ∧
    (newsFromJson 3600 [(asciiBytes "date", Json.str (asciiBytes "not-a-date"))]).date =
      asciiBytes "not-a-date" :=
  ⟨(claim_C3_dates 3600).1, (claim_C3_dates 3600).2.2.2.2.2.2.2⟩

theorem firstSome_eq_none {α : Type} {l : List (Option α)} (h : firstSome l = none) :
    ∀ x ∈ l, x = none := by
  induction l with
  | nil => simp
  | cons a rest ih =>
    rcases a with _ | v
    · rw [show firstSome (none :: rest) = firstSome rest from rfl] at h
      intro x hx
      rcases List.mem_cons.mp hx with h2 | h2
      · rw [h2]
      · exact ih h x h2
    · exact absurd h (by rw [firstSome]; simp)

/-- Changing the assumed zone offset only shifts the instant a layout
produces; it never changes whether the layout accepts the string. -/
theorem layoutMinute_shift (off : ℤ) (t : Bytes) :
    layoutMinute off t = (layoutMinute 0 t).map
      (fun tm => { sec := tm.sec - off, nsec := tm.nsec }) := by
  simp only [layoutMinute]
  rcases parseYMD t with _ | ⟨y, m, d, s1⟩
  · rfl
  · dsimp only
    rcases lit 0x54 s1 with _ | s2
    · rfl
    · dsimp only
      rcases parseHM s2 with _ | ⟨hh, mi, s3⟩
      · rfl
      · dsimp only
        split
        · dsimp only [Option.map]
          rw [mkGoTime, mkGoTime]
          simp only [Option.some.injEq, GoTime.mk.injEq]
          exact ⟨by omega, trivial⟩
        · rfl

/-- C4 fails on the code: no input string can reach a successful local-zone
fallback, because the fallback's layout `2006-01-02T15:04` is identical to
the fifth UTC layout tried before it — if every UTC layout failed, the
fallback fails too. -/
theorem claim_C4_localzone_cex :
    ¬ ∃ (s : Bytes) (off : ℤ),
        firstSome (layoutAttempts (goTrimSpace s)) = none ∧
        layoutMinute off (goTrimSpace s) ≠ none := by
  rintro ⟨s, off, hall, hfb⟩
  have h5 : layoutMinute 0 (goTrimSpace s) = none :=
    firstSome_eq_none hall _ (by
      rw [layoutAttempts]
      exact List.mem_cons_of_mem _ (List.mem_cons_of_mem _ (List.mem_cons_of_mem _
        (List.mem_cons_of_mem _ (List.mem_cons_self _ _)))))
  rw [layoutMinute_shift off, h5] at hfb
  exact hfb rfl

/-- C4 amended: the final local-zone fallback of `parseFlexibleTime` is
unreachable (any string it would accept was already parsed by the fifth UTC
layout), so the parsed instant — and hence the canonical UTC output — never
depends on the process's local zone offset. -/
theorem claim_C4_localzone_amended :
    ∀ (off1 off2 : ℤ) (s : Bytes), parseFlexibleTime off1 s = parseFlexibleTime off2 s := by
  intro o1 o2 s
  rw [parseFlexibleTime, parseFlexibleTime]
  rcases h : firstSome (layoutAttempts (goTrimSpace s)) with _ | tm
  · have h5 : layoutMinute 0 (goTrimSpace s) = none :=
      firstSome_eq_none h _ (by
        rw [layoutAttempts]
        exact List.mem_cons_of_mem _ (List.mem_cons_of_mem _ (List.mem_cons_of_mem _
          (List.mem_cons_of_mem _ (List.mem_cons_self _ _)))))
    rw [layoutMinute_shift o1, layoutMinute_shift o2, h5]
    rfl
  · rfl

/-- Witness for C4 (amended) at concrete inputs: parsing with a +1h local
zone and with UTC agree, both on a minute-precision string and on garbage. -/
theorem claim_C4_localzone_amended_witness :
    parseFlexibleTime 3600 (asciiBytes "2023-01-05T14:30") =
      parseFlexibleTime 0 (asciiBytes "2023-01-05T14:30") ∧
    parseFlexibleTime 3600 (asciiBytes "not-a-date") =
      parseFlexibleTime 0 (asciiBytes "not-a-date") :=
  ⟨claim_C4_localzone_amended 3600 0 _, claim_C4_localzone_amended 3600 0 _⟩

end FixRepo
